import Mathlib

/-!
Verification of the temporal_tables extension (src/temporal_tables.c,
src/temporal_tables.h, src/versioning.c).

The development shallowly embeds the versioning trigger engine, the
transaction-scoped temporal-context stack and the per-relation metadata
cache.  Host (PostgreSQL) facilities that the extension calls are
translated at the level of detail the extension relies on:

* `TimestampTz` is modelled as `Int`, a count of microseconds — the
  `integer_datetimes = on` representation that every supported PostgreSQL
  version uses.  The floating-point branch of `next_timestamp` is treated
  separately with an abstract rounding model.
* Range values (`tstzrange`) are modelled in their serialized form: either
  the empty range or a pair of optional (value, inclusive) bounds, `none`
  standing for an infinite bound, exactly the information
  `range_serialize` retains.
* Tuples are a transaction-id (`xmin`) plus a list of datums indexed by
  1-based attribute number.
-/

set_option maxHeartbeats 1000000

deriving instance DecidableEq for Except

namespace TemporalTables

/-- Timestamps with time zone, integer representation: microsecond count. -/
abbrev TimestampTz := Int

/-- A deserialized range bound (PostgreSQL `RangeBound`). -/
structure RangeBound where
  val : TimestampTz
  infinite : Bool
  inclusive : Bool
  lower : Bool
deriving DecidableEq

/-- A range value in serialized form (PostgreSQL `RangeType` for
`tstzrange`): empty, or lower/upper bounds where `none` is an infinite
bound and the `Bool` is the inclusivity flag.  `range_serialize` does not
store the value of an infinite bound, which this form reflects. -/
inductive RangeVal where
  | empty : RangeVal
  | mk (lo : Option (TimestampTz × Bool)) (hi : Option (TimestampTz × Bool)) : RangeVal
deriving DecidableEq

/-- A column value. -/
inductive Datum where
  | null : Datum
  | val (n : Int) : Datum
  | range (r : RangeVal) : Datum
deriving DecidableEq

/-- A heap tuple: creating transaction id plus the column values
(attribute number `n` lives at list index `n - 1`). -/
structure HeapTuple where
  xmin : Nat
  vals : List Datum
deriving DecidableEq

/-- Errors raised (`ereport(ERROR, ...)`) by the extension, carrying the
data the corresponding message interpolates. -/
inductive VersioningError where
  | notCalledByTriggerManager
  | mustBeFiredBeforeRow
  | mustBeFiredForInsertOrUpdateOrDelete
  | wrongNumberOfParameters (got : Int)
  | invalidAdjustParameter (arg : String)
  | nullSystemPeriod
  | invalidSystemPeriodValue
  | periodColumnNotARange
  | systemPeriodConflict (lowerBound : Option TimestampTz) (upperBound : TimestampTz)
  | historyRelationMissingPeriodColumn (period_attname : String)
  | datatypeMismatch (attname : String)
  | rangeLowerBoundMustBeLessThanOrEqualToUpper
deriving DecidableEq

/-- Warnings emitted (`ereport(WARNING, ...)`). -/
inductive Warning where
  | systemPeriodAdjusted
deriving DecidableEq

/-- PostgreSQL `range_cmp_bounds` (rangetypes.c), with the element
comparison fixed to timestamp comparison on `Int`. -/
def range_cmp_bounds (b1 b2 : RangeBound) : Int :=
  if b1.infinite ∧ b2.infinite then
    if b1.lower = b2.lower then 0 else if b1.lower then -1 else 1
  else if b1.infinite then
    if b1.lower then -1 else 1
  else if b2.infinite then
    if b2.lower then 1 else -1
  else if b1.val < b2.val then -1
  else if b2.val < b1.val then 1
  else if ¬b1.inclusive ∧ ¬b2.inclusive then
    if b1.lower = b2.lower then 0 else if b1.lower then 1 else -1
  else if ¬b1.inclusive then
    if b1.lower then 1 else -1
  else if ¬b2.inclusive then
    if b2.lower then -1 else 1
  else 0

/-- PostgreSQL `range_serialize` / `make_range`: reject inverted bounds,
collapse a zero-width non-doubly-inclusive pair to the empty range, and
drop the stored value of infinite bounds. -/
def make_range (lo hi : RangeBound) : Except VersioningError RangeVal :=
  let c := range_cmp_bounds lo hi
  if 0 < c then .error .rangeLowerBoundMustBeLessThanOrEqualToUpper
  else if c = 0 ∧ ¬(lo.inclusive ∧ hi.inclusive) then .ok .empty
  else .ok (.mk (if lo.infinite then none else some (lo.val, lo.inclusive))
                (if hi.infinite then none else some (hi.val, hi.inclusive)))

/-- PostgreSQL `range_deserialize`: recover the bound structures and the
emptiness flag from a serialized range. -/
def range_deserialize (r : RangeVal) : RangeBound × RangeBound × Bool :=
  match r with
  | .empty => (⟨0, false, false, true⟩, ⟨0, false, false, false⟩, true)
  | .mk lo hi =>
      (⟨(lo.map Prod.fst).getD 0, lo.isNone, (lo.map Prod.snd).getD false, true⟩,
       ⟨(hi.map Prod.fst).getD 0, hi.isNone, (hi.map Prod.snd).getD false, false⟩,
       false)

/-- `SPI_getbinval` on our tuple model: fetch the datum of the attribute
with the given 1-based number. -/
def SPI_getbinval (t : HeapTuple) (attnum : Nat) : Datum :=
  t.vals.getD (attnum - 1) .null

/-- ASCII lower-casing of one character, as C `tolower` behaves on the
ASCII arguments `pg_strcasecmp` feeds it. -/
def pg_tolower (c : Char) : Char :=
  if 'A' ≤ c ∧ c ≤ 'Z' then Char.ofNat (c.toNat + 32) else c

/-- `pg_strcasecmp(a, b) == 0`: equality after per-character ASCII
lower-casing. -/
def pg_strcasecmp_eq (a b : String) : Bool :=
  decide (a.data.map pg_tolower = b.data.map pg_tolower)

/-- `parse_adjust_argument` (versioning.c): parse the trigger's "adjust"
argument as a boolean; only "true" and "false" (case-insensitively,
`pg_strcasecmp`) are accepted. -/
def parse_adjust_argument (arg : String) : Except VersioningError Bool :=
  if pg_strcasecmp_eq arg "true" then .ok true
  else if pg_strcasecmp_eq arg "false" then .ok false
  else .error (.invalidAdjustParameter arg)

/-- `next_timestamp` (versioning.c), integer-datetimes branch: add one
microsecond. -/
def next_timestamp (timestamp : TimestampTz) : TimestampTz :=
  timestamp + 1

/-- `adjust_system_period` (versioning.c): if the upper bound does not
strictly exceed the lower bound, either fail (adjust = false) with an
error carrying both boundary timestamps, or warn and bump the upper bound
to the successor of the lower bound (adjust = true). -/
def adjust_system_period (lower upper : RangeBound) (adjust_argument : String) :
    Except VersioningError (RangeBound × List Warning) :=
  if range_cmp_bounds lower upper ≥ 0 then
    match parse_adjust_argument adjust_argument with
    | .error e => .error e
    | .ok false =>
        .error (.systemPeriodConflict
          (if lower.infinite then none else some lower.val) upper.val)
    | .ok true =>
        .ok ({ upper with val := next_timestamp lower.val },
             [Warning.systemPeriodAdjusted])
  else .ok (upper, [])

/-- `deserialize_system_period` (versioning.c): read the period column of
a row; fail on NULL, on an empty range, and on a range bounded above.
The `.val` case is type confusion that the host's type system rules out;
it is mapped to an error of its own. -/
def deserialize_system_period (tuple : HeapTuple) (period_attnum : Nat) :
    Except VersioningError (RangeBound × RangeBound) :=
  match SPI_getbinval tuple period_attnum with
  | .null => .error .nullSystemPeriod
  | .val _ => .error .periodColumnNotARange
  | .range r =>
      let lue := range_deserialize r
      if lue.2.2 ∨ ¬lue.2.1.infinite then .error .invalidSystemPeriodValue
      else .ok (lue.1, lue.2.1)

/-- `modified_in_current_transaction` (versioning.c): the tuple's `xmin`
is the current transaction's id. -/
def modified_in_current_transaction (current_xid : Nat) (tuple : HeapTuple) : Bool :=
  tuple.xmin = current_xid

/-- `modify_tuple` (versioning.c): replace the period attribute of a tuple
with the given range, leaving everything else intact. -/
def modify_tuple (tuple : HeapTuple) (period_attnum : Nat) (r : RangeVal) : HeapTuple :=
  { tuple with vals := tuple.vals.set (period_attnum - 1) (.range r) }

/-- `versioning_insert` (versioning.c): set the new row's period to
`[now, +infinity)`.  `now` is the value `get_system_time()` returned. -/
def versioning_insert (now : TimestampTz) (period_attnum : Nat)
    (tg_trigtuple : HeapTuple) : Except VersioningError HeapTuple := do
  let lower : RangeBound := ⟨now, false, true, true⟩
  let upper : RangeBound := ⟨0, true, false, false⟩
  let r ← make_range lower upper
  .ok (modify_tuple tg_trigtuple period_attnum r)

/-- `versioning_update` (versioning.c): skip rows already modified in the
current transaction; otherwise archive the old row with period
`[old_lower, adjusted_now)` and give the surviving row period
`[adjusted_now, +infinity)`.  The returned triple is (row image handed
back to the executor, archived history row if any, warnings). -/
def versioning_update (current_xid : Nat) (now : TimestampTz)
    (adjust_argument : String) (period_attnum : Nat)
    (tg_trigtuple tg_newtuple : HeapTuple) :
    Except VersioningError (HeapTuple × Option HeapTuple × List Warning) :=
  if modified_in_current_transaction current_xid tg_trigtuple then
    .ok (tg_newtuple, none, [])
  else do
    let lu ← deserialize_system_period tg_trigtuple period_attnum
    let lower := lu.1
    let upper0 : RangeBound := { lu.2 with val := now, infinite := false, inclusive := false }
    let uw ← adjust_system_period lower upper0 adjust_argument
    let upper := uw.1
    let r ← make_range lower upper
    let history_tuple := modify_tuple tg_trigtuple period_attnum r
    let lower2 : RangeBound := { lower with val := upper.val, infinite := false, inclusive := true }
    let upper2 : RangeBound := { upper with infinite := true, inclusive := false }
    let r2 ← make_range lower2 upper2
    .ok (modify_tuple tg_newtuple period_attnum r2, some history_tuple, uw.2)

/-- `versioning_delete` (versioning.c): same archival path as update, but
the unmodified old row image is returned so the deletion proceeds. -/
def versioning_delete (current_xid : Nat) (now : TimestampTz)
    (adjust_argument : String) (period_attnum : Nat)
    (tg_trigtuple : HeapTuple) :
    Except VersioningError (HeapTuple × Option HeapTuple × List Warning) :=
  if modified_in_current_transaction current_xid tg_trigtuple then
    .ok (tg_trigtuple, none, [])
  else do
    let lu ← deserialize_system_period tg_trigtuple period_attnum
    let lower := lu.1
    let upper0 : RangeBound := { lu.2 with val := now, infinite := false, inclusive := false }
    let uw ← adjust_system_period lower upper0 adjust_argument
    let upper := uw.1
    let r ← make_range lower upper
    let history_tuple := modify_tuple tg_trigtuple period_attnum r
    .ok (tg_trigtuple, some history_tuple, uw.2)

/-- State of one versioned relation: the current live row (the scenarios
in the spec have a single row) and the archived history rows in insertion
order. -/
structure TableState where
  live : Option HeapTuple
  history : List HeapTuple
deriving DecidableEq

/-- Host row-modification protocol, INSERT path: fire the BEFORE ROW
trigger on the proposed tuple and store its result with the inserting
transaction's `xmin`. -/
def host_insert (xid : Nat) (now : TimestampTz) (period_attnum : Nat)
    (newvals : List Datum) (st : TableState) : Except VersioningError TableState := do
  let t ← versioning_insert now period_attnum ⟨xid, newvals⟩
  .ok { st with live := some { t with xmin := xid } }

/-- Host row-modification protocol, UPDATE path: build the proposed new
tuple from the old one, fire the trigger, store the returned image with
the updating transaction's `xmin`, and append any archived row to the
history relation. -/
def host_update (xid : Nat) (now : TimestampTz) (adjust_argument : String)
    (period_attnum : Nat) (f : List Datum → List Datum) (st : TableState) :
    Except VersioningError TableState :=
  match st.live with
  | none => .ok st
  | some old => do
      let rhw ← versioning_update xid now adjust_argument period_attnum old
                  ⟨xid, f old.vals⟩
      .ok { live := some { rhw.1 with xmin := xid },
            history := st.history ++ rhw.2.1.toList }

/-- Host row-modification protocol, DELETE path: fire the trigger, remove
the live row, and append any archived row to the history relation. -/
def host_delete (xid : Nat) (now : TimestampTz) (adjust_argument : String)
    (period_attnum : Nat) (st : TableState) : Except VersioningError TableState :=
  match st.live with
  | none => .ok st
  | some old => do
      let rhw ← versioning_delete xid now adjust_argument period_attnum old
      .ok { live := none, history := st.history ++ rhw.2.1.toList }

/-- The operation a trigger invocation was fired by. -/
inductive TriggerOp where
  | insert | update | delete | truncate
deriving DecidableEq

/-- The part of `TriggerData` / `fcinfo` that the entry-point validation
of `versioning` inspects. -/
structure TriggerEventInfo where
  called_as_trigger : Bool
  fired_before : Bool
  fired_for_row : Bool
  op : TriggerOp
  tgnargs : Int
deriving DecidableEq

/-- `TRIGGER_FIRED_BY_INSERT || TRIGGER_FIRED_BY_UPDATE ||
TRIGGER_FIRED_BY_DELETE`. -/
def fired_by_modify (op : TriggerOp) : Bool :=
  match op with
  | .insert => true
  | .update => true
  | .delete => true
  | .truncate => false

/-- The validation prefix of `versioning` (versioning.c): called by the
trigger manager, BEFORE, FOR EACH ROW, by INSERT or UPDATE or DELETE,
with exactly 3 arguments. -/
def versioning_check (ti : TriggerEventInfo) : Except VersioningError Unit :=
  if ¬ti.called_as_trigger then .error .notCalledByTriggerManager
  else if ¬ti.fired_before ∨ ¬ti.fired_for_row then .error .mustBeFiredBeforeRow
  else if ¬fired_by_modify ti.op then .error .mustBeFiredForInsertOrUpdateOrDelete
  else if ti.tgnargs ≠ 3 then .error (.wrongNumberOfParameters ti.tgnargs)
  else .ok ()

/-! Helper lemmas about the archival path. -/

theorem except_bind_ok {ε α β : Type} (a : α) (f : α → Except ε β) :
    (Except.ok (ε := ε) a >>= f) = f a := rfl

theorem except_bind_error {ε α β : Type} (e : ε) (f : α → Except ε β) :
    (Except.error (α := α) e >>= f) = Except.error e := rfl

/-- Comparison of the stored (finite) lower bound against the candidate
exclusive upper bound: nonnegative exactly when `now ≤ l`. -/
theorem range_cmp_lower_upper (l now : TimestampTz) (linc : Bool) :
    range_cmp_bounds ⟨l, false, linc, true⟩ ⟨now, false, false, false⟩ =
      if l < now then -1 else 1 := by
  cases linc <;> simp [range_cmp_bounds]

theorem make_range_finite_lt {l now : TimestampTz} {linc : Bool} (h : l < now) :
    make_range ⟨l, false, linc, true⟩ ⟨now, false, false, false⟩ =
      .ok (.mk (some (l, linc)) (some (now, false))) := by
  simp [make_range, range_cmp_lower_upper, h]

theorem make_range_to_infinity (x v : TimestampTz) (linc : Bool) :
    make_range ⟨x, false, linc, true⟩ ⟨v, true, false, false⟩ =
      .ok (.mk (some (x, linc)) none) := by
  simp [make_range, range_cmp_bounds]

theorem deserialize_system_period_ok {tuple : HeapTuple} {p : Nat}
    {lo : Option (TimestampTz × Bool)}
    (h : SPI_getbinval tuple p = .range (.mk lo none)) :
    deserialize_system_period tuple p =
      .ok (⟨(lo.map Prod.fst).getD 0, lo.isNone, (lo.map Prod.snd).getD false, true⟩,
           ⟨0, true, false, false⟩) := by
  simp [deserialize_system_period, h, range_deserialize]

/-- The normal archival path of an update: exactly one history row with
period `[l, now)` and a surviving row with period `[now, +infinity)`. -/
theorem versioning_update_archives (xid : Nat) (now : TimestampTz) (adj : String)
    (p : Nat) (tuple newtuple : HeapTuple) (l : TimestampTz) (linc : Bool)
    (hx : tuple.xmin ≠ xid)
    (hp : SPI_getbinval tuple p = .range (.mk (some (l, linc)) none))
    (hlt : l < now) :
    versioning_update xid now adj p tuple newtuple =
      .ok (modify_tuple newtuple p (.mk (some (now, true)) none),
           some (modify_tuple tuple p (.mk (some (l, linc)) (some (now, false)))),
           []) := by
  have hd := deserialize_system_period_ok hp
  simp [versioning_update, modified_in_current_transaction, hx, hd, except_bind_ok,
        adjust_system_period, range_cmp_lower_upper, hlt,
        make_range_finite_lt hlt, make_range_to_infinity]

/-- The normal archival path of a delete: one history row with period
`[l, now)`, the original row image returned. -/
theorem versioning_delete_archives (xid : Nat) (now : TimestampTz) (adj : String)
    (p : Nat) (tuple : HeapTuple) (l : TimestampTz) (linc : Bool)
    (hx : tuple.xmin ≠ xid)
    (hp : SPI_getbinval tuple p = .range (.mk (some (l, linc)) none))
    (hlt : l < now) :
    versioning_delete xid now adj p tuple =
      .ok (tuple,
           some (modify_tuple tuple p (.mk (some (l, linc)) (some (now, false)))),
           []) := by
  have hd := deserialize_system_period_ok hp
  simp [versioning_delete, modified_in_current_transaction, hx, hd, except_bind_ok,
        adjust_system_period, range_cmp_lower_upper, hlt,
        make_range_finite_lt hlt]

end TemporalTables

namespace TemporalTables

/-! Claim theorems about the versioning engine. -/

/-- Claim C1: for a row not modified earlier in the same transaction with
`now` strictly above the stored lower bound, an insert sets the period to
`[now, +infinity)`; an update archives exactly one history row
`[old_lower, now)` with the old column values and gives the survivor
`[now, +infinity)`; a delete archives one such row and returns the
original image; and the insert-at-t0 / update-at-t1 / delete-at-t2
sequence yields history rows `[t0, t1)` and `[t1, t2)` and no live row. -/
theorem claim_C1_versioned_lifecycle :
    (∀ (now : TimestampTz) (p : Nat) (t : HeapTuple), 1 ≤ p → p - 1 < t.vals.length →
      ∃ t2, versioning_insert now p t = .ok t2 ∧
        t2.vals[p - 1]? = some (.range (.mk (some (now, true)) none)) ∧
        t2.xmin = t.xmin ∧ ∀ j, j ≠ p - 1 → t2.vals[j]? = t.vals[j]?) ∧
    (∀ (xid : Nat) (now : TimestampTz) (adj : String) (p : Nat)
       (tuple newtuple : HeapTuple) (l : TimestampTz) (linc : Bool),
      tuple.xmin ≠ xid →
      SPI_getbinval tuple p = .range (.mk (some (l, linc)) none) →
      l < now →
      versioning_update xid now adj p tuple newtuple =
        .ok (modify_tuple newtuple p (.mk (some (now, true)) none),
             some (modify_tuple tuple p (.mk (some (l, linc)) (some (now, false)))),
             [])) ∧
    (∀ (xid : Nat) (now : TimestampTz) (adj : String) (p : Nat)
       (tuple : HeapTuple) (l : TimestampTz) (linc : Bool),
      tuple.xmin ≠ xid →
      SPI_getbinval tuple p = .range (.mk (some (l, linc)) none) →
      l < now →
      versioning_delete xid now adj p tuple =
        .ok (tuple,
             some (modify_tuple tuple p (.mk (some (l, linc)) (some (now, false)))),
             [])) ∧
    (∀ (t0 t1 t2 : TimestampTz) (x0 x1 x2 : Nat) (i a b : Int) (adj : String),
      t0 < t1 → t1 < t2 → x1 ≠ x0 → x2 ≠ x1 →
      (do
        let s1 ← host_insert x0 t0 3 [.val i, .val a, .null] ⟨none, []⟩
        let s2 ← host_update x1 t1 adj 3 (fun vs => vs.set 1 (.val b)) s1
        host_delete x2 t2 adj 3 s2) =
      .ok ⟨none,
           [⟨x0, [.val i, .val a, .range (.mk (some (t0, true)) (some (t1, false)))]⟩,
            ⟨x1, [.val i, .val b, .range (.mk (some (t1, true)) (some (t2, false)))]⟩]⟩) := by
  refine ⟨?_, ?_, ?_, ?_⟩
  · intro now p t hp1 hpl
    have hins : versioning_insert now p t =
        .ok (modify_tuple t p (.mk (some (now, true)) none)) := by
      simp [versioning_insert, make_range_to_infinity, except_bind_ok]
    refine ⟨_, hins, ?_, rfl, ?_⟩
    · simp only [modify_tuple]
      exact List.getElem?_set_self (by omega)
    · intro j hj
      simp only [modify_tuple]
      exact List.getElem?_set_ne (by omega)
  · intro xid now adj p tuple newtuple l linc hx hp hlt
    exact versioning_update_archives xid now adj p tuple newtuple l linc hx hp hlt
  · intro xid now adj p tuple l linc hx hp hlt
    exact versioning_delete_archives xid now adj p tuple l linc hx hp hlt
  · intro t0 t1 t2 x0 x1 x2 i a b adj h01 h12 hx10 hx21
    have hu := versioning_update_archives x1 t1 adj 3
      ⟨x0, [.val i, .val a, .range (.mk (some (t0, true)) none)]⟩
      ⟨x1, [.val i, .val b, .range (.mk (some (t0, true)) none)]⟩
      t0 true (Ne.symm hx10) rfl h01
    have hd := versioning_delete_archives x2 t2 adj 3
      ⟨x1, [.val i, .val b, .range (.mk (some (t1, true)) none)]⟩
      t1 true (Ne.symm hx21) rfl h12
    have h1 : host_insert x0 t0 3 [.val i, .val a, .null] (⟨none, []⟩ : TableState) =
        .ok ⟨some ⟨x0, [.val i, .val a, .range (.mk (some (t0, true)) none)]⟩, []⟩ := rfl
    have h2 : host_update x1 t1 adj 3 (fun vs => vs.set 1 (.val b))
        ⟨some ⟨x0, [.val i, .val a, .range (.mk (some (t0, true)) none)]⟩, []⟩ =
        .ok ⟨some ⟨x1, [.val i, .val b, .range (.mk (some (t1, true)) none)]⟩,
             [⟨x0, [.val i, .val a, .range (.mk (some (t0, true)) (some (t1, false)))]⟩]⟩ := by
      show Bind.bind (versioning_update x1 t1 adj 3
          ⟨x0, [.val i, .val a, .range (.mk (some (t0, true)) none)]⟩
          ⟨x1, [.val i, .val b, .range (.mk (some (t0, true)) none)]⟩) _ = _
      rw [hu]
      rfl
    have h3 : host_delete x2 t2 adj 3
        ⟨some ⟨x1, [.val i, .val b, .range (.mk (some (t1, true)) none)]⟩,
         [⟨x0, [.val i, .val a, .range (.mk (some (t0, true)) (some (t1, false)))]⟩]⟩ =
        .ok ⟨none,
             [⟨x0, [.val i, .val a, .range (.mk (some (t0, true)) (some (t1, false)))]⟩,
              ⟨x1, [.val i, .val b, .range (.mk (some (t1, true)) (some (t2, false)))]⟩]⟩ := by
      show Bind.bind (versioning_delete x2 t2 adj 3
          ⟨x1, [.val i, .val b, .range (.mk (some (t1, true)) none)]⟩) _ = _
      rw [hd]
      rfl
    simp only [h1, except_bind_ok, h2, h3]


/-! Helper lemmas for the conflicting-bounds branch. -/

theorem strcasecmp_not_true_of_false {arg : String}
    (h : pg_strcasecmp_eq arg "false" = true) :
    pg_strcasecmp_eq arg "true" = false := by
  have h2 : arg.data.map pg_tolower = "false".data.map pg_tolower :=
    of_decide_eq_true h
  apply decide_eq_false
  intro hcon
  rw [h2] at hcon
  exact absurd hcon (by decide)

theorem strcasecmp_not_false_of_true {arg : String}
    (h : pg_strcasecmp_eq arg "true" = true) :
    pg_strcasecmp_eq arg "false" = false := by
  have h2 : arg.data.map pg_tolower = "true".data.map pg_tolower :=
    of_decide_eq_true h
  apply decide_eq_false
  intro hcon
  rw [h2] at hcon
  exact absurd hcon (by decide)

theorem parse_false_of_toLower {arg : String}
    (h : pg_strcasecmp_eq arg "false" = true) :
    parse_adjust_argument arg = .ok false := by
  simp [parse_adjust_argument, h, strcasecmp_not_true_of_false h]

theorem parse_true_of_toLower {arg : String}
    (h : pg_strcasecmp_eq arg "true" = true) :
    parse_adjust_argument arg = .ok true := by
  simp [parse_adjust_argument, h]

/-- Update with a conflicting bound and adjust = false: the conflict error
carries both boundary timestamps and nothing is archived. -/
theorem versioning_update_conflict (xid : Nat) (now : TimestampTz) (adj : String)
    (p : Nat) (tuple newtuple : HeapTuple) (l : TimestampTz) (linc : Bool)
    (hx : tuple.xmin ≠ xid)
    (hp : SPI_getbinval tuple p = .range (.mk (some (l, linc)) none))
    (hge : now ≤ l)
    (hparse : parse_adjust_argument adj = .ok false) :
    versioning_update xid now adj p tuple newtuple =
      .error (.systemPeriodConflict (some l) now) := by
  have hd := deserialize_system_period_ok hp
  simp [versioning_update, modified_in_current_transaction, hx, hd, except_bind_ok,
        except_bind_error, adjust_system_period, range_cmp_lower_upper,
        not_lt.mpr hge, hparse]

/-- Update with a conflicting bound and adjust = true: a warning, and the
archived upper bound becomes the successor of the lower bound. -/
theorem versioning_update_adjusted (xid : Nat) (now : TimestampTz) (adj : String)
    (p : Nat) (tuple newtuple : HeapTuple) (l : TimestampTz) (linc : Bool)
    (hx : tuple.xmin ≠ xid)
    (hp : SPI_getbinval tuple p = .range (.mk (some (l, linc)) none))
    (hge : now ≤ l)
    (hparse : parse_adjust_argument adj = .ok true) :
    versioning_update xid now adj p tuple newtuple =
      .ok (modify_tuple newtuple p (.mk (some (l + 1, true)) none),
           some (modify_tuple tuple p (.mk (some (l, linc)) (some (l + 1, false)))),
           [.systemPeriodAdjusted]) := by
  have hd := deserialize_system_period_ok hp
  have hlt : l < l + 1 := lt_add_one l
  simp [versioning_update, modified_in_current_transaction, hx, hd, except_bind_ok,
        except_bind_error, adjust_system_period, range_cmp_lower_upper,
        not_lt.mpr hge, hparse, next_timestamp,
        make_range_finite_lt hlt, make_range_to_infinity]

/-- Delete with a conflicting bound and adjust = false. -/
theorem versioning_delete_conflict (xid : Nat) (now : TimestampTz) (adj : String)
    (p : Nat) (tuple : HeapTuple) (l : TimestampTz) (linc : Bool)
    (hx : tuple.xmin ≠ xid)
    (hp : SPI_getbinval tuple p = .range (.mk (some (l, linc)) none))
    (hge : now ≤ l)
    (hparse : parse_adjust_argument adj = .ok false) :
    versioning_delete xid now adj p tuple =
      .error (.systemPeriodConflict (some l) now) := by
  have hd := deserialize_system_period_ok hp
  simp [versioning_delete, modified_in_current_transaction, hx, hd, except_bind_ok,
        except_bind_error, adjust_system_period, range_cmp_lower_upper,
        not_lt.mpr hge, hparse]

/-- Delete with a conflicting bound and adjust = true. -/
theorem versioning_delete_adjusted (xid : Nat) (now : TimestampTz) (adj : String)
    (p : Nat) (tuple : HeapTuple) (l : TimestampTz) (linc : Bool)
    (hx : tuple.xmin ≠ xid)
    (hp : SPI_getbinval tuple p = .range (.mk (some (l, linc)) none))
    (hge : now ≤ l)
    (hparse : parse_adjust_argument adj = .ok true) :
    versioning_delete xid now adj p tuple =
      .ok (tuple,
           some (modify_tuple tuple p (.mk (some (l, linc)) (some (l + 1, false)))),
           [.systemPeriodAdjusted]) := by
  have hd := deserialize_system_period_ok hp
  have hlt : l < l + 1 := lt_add_one l
  simp [versioning_delete, modified_in_current_transaction, hx, hd, except_bind_ok,
        except_bind_error, adjust_system_period, range_cmp_lower_upper,
        not_lt.mpr hge, hparse, next_timestamp, make_range_finite_lt hlt]

/-- Claim C2: with the candidate closing bound at or below the stored
lower bound, adjust = false fails with a fatal error naming both boundary
timestamps (no history row results, the whole operation errors out), and
adjust = true warns and continues with the upper bound set to the smallest
representable timestamp strictly greater than the lower bound, making the
archived interval non-empty. -/
theorem claim_C2_adjustment_policy :
    (∀ (lv now : TimestampTz) (lc : Bool) (adj : String), now ≤ lv →
      (pg_strcasecmp_eq adj "false" = true →
        adjust_system_period ⟨lv, false, lc, true⟩ ⟨now, false, false, false⟩ adj =
          .error (.systemPeriodConflict (some lv) now)) ∧
      (pg_strcasecmp_eq adj "true" = true →
        adjust_system_period ⟨lv, false, lc, true⟩ ⟨now, false, false, false⟩ adj =
          .ok (⟨lv + 1, false, false, false⟩, [.systemPeriodAdjusted]) ∧
        lv < lv + 1 ∧
        (∀ u : TimestampTz, lv < u → lv + 1 ≤ u))) ∧
    (∀ (xid : Nat) (now : TimestampTz) (adj : String) (p : Nat)
       (tuple newtuple : HeapTuple) (l : TimestampTz) (linc : Bool),
      tuple.xmin ≠ xid →
      SPI_getbinval tuple p = .range (.mk (some (l, linc)) none) →
      now ≤ l →
      (pg_strcasecmp_eq adj "false" = true →
        versioning_update xid now adj p tuple newtuple =
          .error (.systemPeriodConflict (some l) now) ∧
        versioning_delete xid now adj p tuple =
          .error (.systemPeriodConflict (some l) now)) ∧
      (pg_strcasecmp_eq adj "true" = true →
        versioning_update xid now adj p tuple newtuple =
          .ok (modify_tuple newtuple p (.mk (some (l + 1, true)) none),
               some (modify_tuple tuple p (.mk (some (l, linc)) (some (l + 1, false)))),
               [.systemPeriodAdjusted]) ∧
        versioning_delete xid now adj p tuple =
          .ok (tuple,
               some (modify_tuple tuple p (.mk (some (l, linc)) (some (l + 1, false)))),
               [.systemPeriodAdjusted]) ∧
        l < l + 1)) := by
  constructor
  · intro lv now lc adj hge
    constructor
    · intro hadj
      simp [adjust_system_period, range_cmp_lower_upper, not_lt.mpr hge,
            parse_false_of_toLower hadj]
    · intro hadj
      refine ⟨?_, lt_add_one lv, fun u hu => Int.add_one_le_iff.mpr hu⟩
      simp [adjust_system_period, range_cmp_lower_upper, not_lt.mpr hge,
            parse_true_of_toLower hadj, next_timestamp]
  · intro xid now adj p tuple newtuple l linc hx hp hge
    constructor
    · intro hadj
      exact ⟨versioning_update_conflict xid now adj p tuple newtuple l linc hx hp hge
               (parse_false_of_toLower hadj),
             versioning_delete_conflict xid now adj p tuple l linc hx hp hge
               (parse_false_of_toLower hadj)⟩
    · intro hadj
      exact ⟨versioning_update_adjusted xid now adj p tuple newtuple l linc hx hp hge
               (parse_true_of_toLower hadj),
             versioning_delete_adjusted xid now adj p tuple l linc hx hp hge
               (parse_true_of_toLower hadj),
             lt_add_one l⟩


/-- Claim C4: an update or delete of a row created or last modified in the
current transaction skips archival and interval recomputation entirely
(the row image passes through unchanged, no history row, no warning), so
insert followed by update in one transaction leaves no history row and
keeps the insert-time lower bound. -/
theorem claim_C4_same_transaction_skip :
    (∀ (xid : Nat) (now : TimestampTz) (adj : String) (p : Nat)
       (tuple newtuple : HeapTuple), tuple.xmin = xid →
      versioning_update xid now adj p tuple newtuple = .ok (newtuple, none, []) ∧
      versioning_delete xid now adj p tuple = .ok (tuple, none, [])) ∧
    (∀ (t0 t1 : TimestampTz) (x : Nat) (i a b : Int) (adj : String),
      (do
        let s1 ← host_insert x t0 3 [.val i, .val a, .null] ⟨none, []⟩
        host_update x t1 adj 3 (fun vs => vs.set 1 (.val b)) s1) =
      .ok ⟨some ⟨x, [.val i, .val b, .range (.mk (some (t0, true)) none)]⟩, []⟩) := by
  constructor
  · intro xid now adj p tuple newtuple hx
    constructor
    · simp [versioning_update, modified_in_current_transaction, hx]
    · simp [versioning_delete, modified_in_current_transaction, hx]
  · intro t0 t1 x i a b adj
    have h1 : host_insert x t0 3 [.val i, .val a, .null] (⟨none, []⟩ : TableState) =
        .ok ⟨some ⟨x, [.val i, .val a, .range (.mk (some (t0, true)) none)]⟩, []⟩ := rfl
    have hu : versioning_update x t1 adj 3
        ⟨x, [.val i, .val a, .range (.mk (some (t0, true)) none)]⟩
        ⟨x, [.val i, .val b, .range (.mk (some (t0, true)) none)]⟩ =
        .ok (⟨x, [.val i, .val b, .range (.mk (some (t0, true)) none)]⟩, none, []) := by
      simp [versioning_update, modified_in_current_transaction]
    have h2 : host_update x t1 adj 3 (fun vs => vs.set 1 (.val b))
        ⟨some ⟨x, [.val i, .val a, .range (.mk (some (t0, true)) none)]⟩, []⟩ =
        .ok ⟨some ⟨x, [.val i, .val b, .range (.mk (some (t0, true)) none)]⟩, []⟩ := by
      show Bind.bind (versioning_update x t1 adj 3
          ⟨x, [.val i, .val a, .range (.mk (some (t0, true)) none)]⟩
          ⟨x, [.val i, .val b, .range (.mk (some (t0, true)) none)]⟩) _ = _
      rw [hu]
      rfl
    simp only [h1, except_bind_ok, h2]

/-- Claim C8: reading the stored period of the old row fails exactly when
the period column is null, the stored range is empty, or the stored range
is bounded on its upper side; otherwise it succeeds and yields the
deserialized bounds. -/
theorem claim_C8_period_read_errors :
    ∀ (tuple : HeapTuple) (p : Nat),
      (∀ n, SPI_getbinval tuple p ≠ .val n) →
      ((∃ e, deserialize_system_period tuple p = .error e) ↔
        (SPI_getbinval tuple p = .null ∨
         SPI_getbinval tuple p = .range .empty ∨
         ∃ lo hv, SPI_getbinval tuple p = .range (.mk lo (some hv)))) ∧
      (∀ lo, SPI_getbinval tuple p = .range (.mk lo none) →
        deserialize_system_period tuple p =
          .ok (⟨(lo.map Prod.fst).getD 0, lo.isNone, (lo.map Prod.snd).getD false, true⟩,
               ⟨0, true, false, false⟩)) := by
  intro tuple p hwt
  rcases hD : SPI_getbinval tuple p with _ | n | r
  · constructor
    · simp [deserialize_system_period, hD]
    · intro lo hlo
      cases hlo
  · exact absurd hD (hwt n)
  · rcases r with _ | ⟨lo, hi⟩
    · constructor
      · simp [deserialize_system_period, hD, range_deserialize]
      · intro lo hlo
        cases hlo
    · rcases hi with _ | hv
      · constructor
        · simp [deserialize_system_period, hD, range_deserialize]
        · intro lo2 hlo
          have hlo2 : lo = lo2 := by
            injection hlo with h
            injection h with ha hb
          subst hlo2
          exact deserialize_system_period_ok hD
      · constructor
        · simp [deserialize_system_period, hD, range_deserialize]
        · intro lo2 hlo
          cases hlo

/-- Claim C9: the entry-point validation succeeds exactly when the trigger
manager fired the function BEFORE, FOR EACH ROW, for INSERT or UPDATE or
DELETE, with exactly three arguments; and the adjust-policy argument must
be "true" or "false" case-insensitively, anything else being a fatal
configuration error. -/
theorem claim_C9_trigger_validation :
    (∀ ti : TriggerEventInfo,
      versioning_check ti = .ok () ↔
        (ti.called_as_trigger = true ∧ ti.fired_before = true ∧
         ti.fired_for_row = true ∧
         (ti.op = .insert ∨ ti.op = .update ∨ ti.op = .delete) ∧
         ti.tgnargs = 3)) ∧
    (∀ arg : String,
      (parse_adjust_argument arg = .ok true ↔ pg_strcasecmp_eq arg "true" = true) ∧
      (parse_adjust_argument arg = .ok false ↔ pg_strcasecmp_eq arg "false" = true) ∧
      (parse_adjust_argument arg = .error (.invalidAdjustParameter arg) ↔
        (pg_strcasecmp_eq arg "true" = false ∧
         pg_strcasecmp_eq arg "false" = false))) := by
  constructor
  · intro ti
    obtain ⟨c, bf, fr, op, n⟩ := ti
    cases c <;> cases bf <;> cases fr <;> cases op <;>
      simp [versioning_check, fired_by_modify]
  · intro arg
    by_cases h1 : pg_strcasecmp_eq arg "true" = true
    · simp [parse_adjust_argument, h1, strcasecmp_not_false_of_true h1]
    · by_cases h2 : pg_strcasecmp_eq arg "false" = true
      · simp [parse_adjust_argument, h1, h2, eq_false_of_ne_true h1]
      · simp [parse_adjust_argument, h1, h2, eq_false_of_ne_true h1,
              eq_false_of_ne_true h2]


/-- Shared shape lemma: any history tuple produced by the archival path of
`versioning_update` is the old row with only the period column replaced by
a closed range whose serialized lower part is the stored one. -/
theorem versioning_update_history_inv (xid : Nat) (now : TimestampTz)
    (adj : String) (p : Nat) (tuple newtuple ret h : HeapTuple)
    (w : List Warning)
    (hok : versioning_update xid now adj p tuple newtuple = .ok (ret, some h, w)) :
    ∃ lo up, SPI_getbinval tuple p = .range (.mk lo none) ∧
      h = modify_tuple tuple p (.mk lo (some (up, false))) := by
  by_cases hmod : modified_in_current_transaction xid tuple = true
  · simp [versioning_update, hmod] at hok
  · have hx : tuple.xmin ≠ xid := by
      simpa [modified_in_current_transaction] using hmod
    rcases hD : SPI_getbinval tuple p with _ | n | r
    · simp [versioning_update, hmod, deserialize_system_period, hD,
            except_bind_error] at hok
    · simp [versioning_update, hmod, deserialize_system_period, hD,
            except_bind_error] at hok
    · rcases r with _ | ⟨lo, hi⟩
      · simp [versioning_update, hmod, deserialize_system_period, hD,
              range_deserialize, except_bind_error] at hok
      · rcases hi with _ | hv
        · rcases lo with _ | ⟨lv, lc⟩
          · have heq : versioning_update xid now adj p tuple newtuple =
                .ok (modify_tuple newtuple p (.mk (some (now, true)) none),
                     some (modify_tuple tuple p (.mk none (some (now, false)))),
                     []) := by
              have hd := deserialize_system_period_ok hD
              simp [versioning_update, modified_in_current_transaction, hx, hd,
                    except_bind_ok, adjust_system_period, range_cmp_bounds,
                    make_range, make_range_to_infinity]
            rw [heq] at hok
            refine ⟨none, now, rfl, ?_⟩
            simp only [Except.ok.injEq, Prod.mk.injEq, Option.some.injEq] at hok
            exact hok.2.1.symm
          · by_cases hlt : lv < now
            · rw [versioning_update_archives xid now adj p tuple newtuple lv lc
                    hx hD hlt] at hok
              refine ⟨some (lv, lc), now, rfl, ?_⟩
              simp only [Except.ok.injEq, Prod.mk.injEq, Option.some.injEq] at hok
              exact hok.2.1.symm
            · have hge : now ≤ lv := not_lt.mp hlt
              rcases hparse : parse_adjust_argument adj with e | b
              · have heq : versioning_update xid now adj p tuple newtuple =
                    .error e := by
                  have hd := deserialize_system_period_ok hD
                  simp [versioning_update, modified_in_current_transaction, hx,
                        hd, except_bind_ok, except_bind_error,
                        adjust_system_period, range_cmp_lower_upper,
                        not_lt.mpr hge, hparse]
                rw [heq] at hok
                cases hok
              · cases b
                · rw [versioning_update_conflict xid now adj p tuple newtuple
                        lv lc hx hD hge hparse] at hok
                  cases hok
                · rw [versioning_update_adjusted xid now adj p tuple newtuple
                        lv lc hx hD hge hparse] at hok
                  refine ⟨some (lv, lc), lv + 1, rfl, ?_⟩
                  simp only [Except.ok.injEq, Prod.mk.injEq, Option.some.injEq] at hok
                  exact hok.2.1.symm
        · simp [versioning_update, hmod, deserialize_system_period, hD,
                range_deserialize, except_bind_error] at hok

/-- Shared shape lemma, delete path. -/
theorem versioning_delete_history_inv (xid : Nat) (now : TimestampTz)
    (adj : String) (p : Nat) (tuple ret h : HeapTuple) (w : List Warning)
    (hok : versioning_delete xid now adj p tuple = .ok (ret, some h, w)) :
    ∃ lo up, SPI_getbinval tuple p = .range (.mk lo none) ∧
      h = modify_tuple tuple p (.mk lo (some (up, false))) := by
  by_cases hmod : modified_in_current_transaction xid tuple = true
  · simp [versioning_delete, hmod] at hok
  · have hx : tuple.xmin ≠ xid := by
      simpa [modified_in_current_transaction] using hmod
    rcases hD : SPI_getbinval tuple p with _ | n | r
    · simp [versioning_delete, hmod, deserialize_system_period, hD,
            except_bind_error] at hok
    · simp [versioning_delete, hmod, deserialize_system_period, hD,
            except_bind_error] at hok
    · rcases r with _ | ⟨lo, hi⟩
      · simp [versioning_delete, hmod, deserialize_system_period, hD,
              range_deserialize, except_bind_error] at hok
      · rcases hi with _ | hv
        · rcases lo with _ | ⟨lv, lc⟩
          · have heq : versioning_delete xid now adj p tuple =
                .ok (tuple,
                     some (modify_tuple tuple p (.mk none (some (now, false)))),
                     []) := by
              have hd := deserialize_system_period_ok hD
              simp [versioning_delete, modified_in_current_transaction, hx, hd,
                    except_bind_ok, adjust_system_period, range_cmp_bounds,
                    make_range]
            rw [heq] at hok
            refine ⟨none, now, rfl, ?_⟩
            simp only [Except.ok.injEq, Prod.mk.injEq, Option.some.injEq] at hok
            exact hok.2.1.symm
          · by_cases hlt : lv < now
            · rw [versioning_delete_archives xid now adj p tuple lv lc
                    hx hD hlt] at hok
              refine ⟨some (lv, lc), now, rfl, ?_⟩
              simp only [Except.ok.injEq, Prod.mk.injEq, Option.some.injEq] at hok
              exact hok.2.1.symm
            · have hge : now ≤ lv := not_lt.mp hlt
              rcases hparse : parse_adjust_argument adj with e | b
              · have heq : versioning_delete xid now adj p tuple =
                    .error e := by
                  have hd := deserialize_system_period_ok hD
                  simp [versioning_delete, modified_in_current_transaction, hx,
                        hd, except_bind_ok, except_bind_error,
                        adjust_system_period, range_cmp_lower_upper,
                        not_lt.mpr hge, hparse]
                rw [heq] at hok
                cases hok
              · cases b
                · rw [versioning_delete_conflict xid now adj p tuple
                        lv lc hx hD hge hparse] at hok
                  cases hok
                · rw [versioning_delete_adjusted xid now adj p tuple
                        lv lc hx hD hge hparse] at hok
                  refine ⟨some (lv, lc), lv + 1, rfl, ?_⟩
                  simp only [Except.ok.injEq, Prod.mk.injEq, Option.some.injEq] at hok
                  exact hok.2.1.symm
        · simp [versioning_delete, hmod, deserialize_system_period, hD,
                range_deserialize, except_bind_error] at hok

/-- Claim C10: every archived history tuple agrees with the old row image
on every attribute except the period column, which alone carries the
closed interval built from the stored lower bound and the adjusted upper
bound. -/
theorem claim_C10_history_frame :
    (∀ (tuple : HeapTuple) (p : Nat) (r : RangeVal),
      (modify_tuple tuple p r).xmin = tuple.xmin ∧
      (∀ j, j ≠ p - 1 → (modify_tuple tuple p r).vals[j]? = tuple.vals[j]?) ∧
      (1 ≤ p → p - 1 < tuple.vals.length →
        (modify_tuple tuple p r).vals[p - 1]? = some (.range r))) ∧
    (∀ (xid : Nat) (now : TimestampTz) (adj : String) (p : Nat)
       (tuple newtuple ret h : HeapTuple) (w : List Warning),
      versioning_update xid now adj p tuple newtuple = .ok (ret, some h, w) →
      h.xmin = tuple.xmin ∧
      (∀ j, j ≠ p - 1 → h.vals[j]? = tuple.vals[j]?) ∧
      ∃ lo up, SPI_getbinval tuple p = .range (.mk lo none) ∧
        h = modify_tuple tuple p (.mk lo (some (up, false)))) ∧
    (∀ (xid : Nat) (now : TimestampTz) (adj : String) (p : Nat)
       (tuple ret h : HeapTuple) (w : List Warning),
      versioning_delete xid now adj p tuple = .ok (ret, some h, w) →
      h.xmin = tuple.xmin ∧
      (∀ j, j ≠ p - 1 → h.vals[j]? = tuple.vals[j]?) ∧
      ∃ lo up, SPI_getbinval tuple p = .range (.mk lo none) ∧
        h = modify_tuple tuple p (.mk lo (some (up, false)))) := by
  refine ⟨?_, ?_, ?_⟩
  · intro tuple p r
    refine ⟨rfl, ?_, ?_⟩
    · intro j hj
      simp only [modify_tuple]
      exact List.getElem?_set_ne (by omega)
    · intro hp1 hpl
      simp only [modify_tuple]
      exact List.getElem?_set_self (by omega)
  · intro xid now adj p tuple newtuple ret h w hok
    obtain ⟨lo, up, hD, hh⟩ :=
      versioning_update_history_inv xid now adj p tuple newtuple ret h w hok
    subst hh
    refine ⟨rfl, ?_, lo, up, hD, rfl⟩
    intro j hj
    simp only [modify_tuple]
    exact List.getElem?_set_ne (by omega)
  · intro xid now adj p tuple ret h w hok
    obtain ⟨lo, up, hD, hh⟩ :=
      versioning_delete_history_inv xid now adj p tuple ret h w hok
    subst hh
    refine ⟨rfl, ?_, lo, up, hD, rfl⟩
    intro j hj
    simp only [modify_tuple]
    exact List.getElem?_set_ne (by omega)


/-! Witnesses: the claim theorems applied at concrete inputs. -/

/-- Witness for C1. -/
theorem claim_C1_witness :
    (∃ t2, versioning_insert 5 3 (⟨1, [.val 7, .val 10, .null]⟩ : HeapTuple) = .ok t2 ∧
       t2.vals[3 - 1]? = some (.range (.mk (some ((5 : TimestampTz), true)) none)) ∧
       t2.xmin = (⟨1, [.val 7, .val 10, .null]⟩ : HeapTuple).xmin ∧
       ∀ j, j ≠ 3 - 1 → t2.vals[j]? = (⟨1, [.val 7, .val 10, .null]⟩ : HeapTuple).vals[j]?) ∧
    versioning_update 2 9 "false" 3
        ⟨1, [.val 7, .val 10, .range (.mk (some (5, true)) none)]⟩
        ⟨2, [.val 7, .val 11, .range (.mk (some (5, true)) none)]⟩ =
      .ok (modify_tuple ⟨2, [.val 7, .val 11, .range (.mk (some (5, true)) none)]⟩ 3
             (.mk (some (9, true)) none),
           some (modify_tuple ⟨1, [.val 7, .val 10, .range (.mk (some (5, true)) none)]⟩ 3
             (.mk (some (5, true)) (some (9, false)))),
           []) ∧
    versioning_delete 3 12 "false" 3
        ⟨2, [.val 7, .val 11, .range (.mk (some (9, true)) none)]⟩ =
      .ok (⟨2, [.val 7, .val 11, .range (.mk (some (9, true)) none)]⟩,
           some (modify_tuple ⟨2, [.val 7, .val 11, .range (.mk (some (9, true)) none)]⟩ 3
             (.mk (some (9, true)) (some (12, false)))),
           []) ∧
    (do
      let s1 ← host_insert 1 0 3 [.val 7, .val 10, .null] ⟨none, []⟩
      let s2 ← host_update 2 1 "false" 3 (fun vs => vs.set 1 (.val 11)) s1
      host_delete 3 2 "false" 3 s2) =
    .ok ⟨none,
         [⟨1, [.val 7, .val 10, .range (.mk (some (0, true)) (some (1, false)))]⟩,
          ⟨2, [.val 7, .val 11, .range (.mk (some (1, true)) (some (2, false)))]⟩]⟩ :=
  ⟨claim_C1_versioned_lifecycle.1 5 3 ⟨1, [.val 7, .val 10, .null]⟩ (by decide) (by decide),
   claim_C1_versioned_lifecycle.2.1 2 9 "false" 3
     ⟨1, [.val 7, .val 10, .range (.mk (some (5, true)) none)]⟩
     ⟨2, [.val 7, .val 11, .range (.mk (some (5, true)) none)]⟩ 5 true
     (by decide) rfl (by decide),
   claim_C1_versioned_lifecycle.2.2.1 3 12 "false" 3
     ⟨2, [.val 7, .val 11, .range (.mk (some (9, true)) none)]⟩ 9 true
     (by decide) rfl (by decide),
   claim_C1_versioned_lifecycle.2.2.2 0 1 2 1 2 3 7 10 11 "false"
     (by decide) (by decide) (by decide) (by decide)⟩

/-- Witness for C2. -/
theorem claim_C2_witness :
    (adjust_system_period ⟨5, false, true, true⟩ ⟨3, false, false, false⟩ "false" =
       .error (.systemPeriodConflict (some 5) 3)) ∧
    (adjust_system_period ⟨5, false, true, true⟩ ⟨3, false, false, false⟩ "True" =
       .ok (⟨5 + 1, false, false, false⟩, [.systemPeriodAdjusted]) ∧
     (5 : TimestampTz) < 5 + 1 ∧
     (∀ u : TimestampTz, 5 < u → 5 + 1 ≤ u)) ∧
    (versioning_update 2 3 "false" 3
        ⟨1, [.val 7, .val 10, .range (.mk (some (5, true)) none)]⟩
        ⟨2, [.val 7, .val 11, .range (.mk (some (5, true)) none)]⟩ =
       .error (.systemPeriodConflict (some 5) 3) ∧
     versioning_delete 2 3 "false" 3
        ⟨1, [.val 7, .val 10, .range (.mk (some (5, true)) none)]⟩ =
       .error (.systemPeriodConflict (some 5) 3)) ∧
    (versioning_update 2 3 "TRUE" 3
        ⟨1, [.val 7, .val 10, .range (.mk (some (5, true)) none)]⟩
        ⟨2, [.val 7, .val 11, .range (.mk (some (5, true)) none)]⟩ =
       .ok (modify_tuple ⟨2, [.val 7, .val 11, .range (.mk (some (5, true)) none)]⟩ 3
              (.mk (some (5 + 1, true)) none),
            some (modify_tuple ⟨1, [.val 7, .val 10, .range (.mk (some (5, true)) none)]⟩ 3
              (.mk (some (5, true)) (some (5 + 1, false)))),
            [.systemPeriodAdjusted]) ∧
     versioning_delete 2 3 "TRUE" 3
        ⟨1, [.val 7, .val 10, .range (.mk (some (5, true)) none)]⟩ =
       .ok (⟨1, [.val 7, .val 10, .range (.mk (some (5, true)) none)]⟩,
            some (modify_tuple ⟨1, [.val 7, .val 10, .range (.mk (some (5, true)) none)]⟩ 3
              (.mk (some (5, true)) (some (5 + 1, false)))),
            [.systemPeriodAdjusted]) ∧
     (5 : TimestampTz) < 5 + 1) :=
  ⟨(claim_C2_adjustment_policy.1 5 3 true "false" (by decide)).1 (by decide),
   (claim_C2_adjustment_policy.1 5 3 true "True" (by decide)).2 (by decide),
   (claim_C2_adjustment_policy.2 2 3 "false" 3
      ⟨1, [.val 7, .val 10, .range (.mk (some (5, true)) none)]⟩
      ⟨2, [.val 7, .val 11, .range (.mk (some (5, true)) none)]⟩ 5 true
      (by decide) rfl (by decide)).1 (by decide),
   (claim_C2_adjustment_policy.2 2 3 "TRUE" 3
      ⟨1, [.val 7, .val 10, .range (.mk (some (5, true)) none)]⟩
      ⟨2, [.val 7, .val 11, .range (.mk (some (5, true)) none)]⟩ 5 true
      (by decide) rfl (by decide)).2 (by decide)⟩

/-- Witness for C4. -/
theorem claim_C4_witness :
    (versioning_update 7 100 "false" 3
       ⟨7, [.val 1, .val 2, .range (.mk (some (0, true)) none)]⟩
       ⟨7, [.val 1, .val 3, .range (.mk (some (0, true)) none)]⟩ =
       .ok (⟨7, [.val 1, .val 3, .range (.mk (some (0, true)) none)]⟩, none, []) ∧
     versioning_delete 7 100 "false" 3
       ⟨7, [.val 1, .val 2, .range (.mk (some (0, true)) none)]⟩ =
       .ok (⟨7, [.val 1, .val 2, .range (.mk (some (0, true)) none)]⟩, none, [])) ∧
    (do
      let s1 ← host_insert 5 0 3 [.val 7, .val 10, .null] ⟨none, []⟩
      host_update 5 99 "bogus" 3 (fun vs => vs.set 1 (.val 11)) s1) =
    .ok ⟨some ⟨5, [.val 7, .val 11, .range (.mk (some (0, true)) none)]⟩, []⟩ :=
  ⟨claim_C4_same_transaction_skip.1 7 100 "false" 3
     ⟨7, [.val 1, .val 2, .range (.mk (some (0, true)) none)]⟩
     ⟨7, [.val 1, .val 3, .range (.mk (some (0, true)) none)]⟩ rfl,
   claim_C4_same_transaction_skip.2 0 99 5 7 10 11 "bogus"⟩

/-- Witness for C8. -/
theorem claim_C8_witness :
    ((∃ e, deserialize_system_period
        (⟨1, [.range (.mk (some (3, true)) none)]⟩ : HeapTuple) 1 = .error e) ↔
      (SPI_getbinval (⟨1, [.range (.mk (some (3, true)) none)]⟩ : HeapTuple) 1 = .null ∨
       SPI_getbinval (⟨1, [.range (.mk (some (3, true)) none)]⟩ : HeapTuple) 1 =
         .range .empty ∨
       ∃ lo hv, SPI_getbinval (⟨1, [.range (.mk (some (3, true)) none)]⟩ : HeapTuple) 1 =
         .range (.mk lo (some hv)))) ∧
    (∀ lo, SPI_getbinval (⟨1, [.range (.mk (some (3, true)) none)]⟩ : HeapTuple) 1 =
        .range (.mk lo none) →
      deserialize_system_period (⟨1, [.range (.mk (some (3, true)) none)]⟩ : HeapTuple) 1 =
        .ok (⟨(lo.map Prod.fst).getD 0, lo.isNone, (lo.map Prod.snd).getD false, true⟩,
             ⟨0, true, false, false⟩)) :=
  claim_C8_period_read_errors ⟨1, [.range (.mk (some (3, true)) none)]⟩ 1
    (fun n => by simp [SPI_getbinval])

/-- Witness for C10. -/
theorem claim_C10_witness :
    ((modify_tuple ⟨4, [.val 1, .null, .val 2]⟩ 2 (.mk (some (0, true)) none)).vals[2 - 1]? =
       some (.range (.mk (some (0, true)) none))) ∧
    (let tA : HeapTuple := ⟨1, [.val 7, .val 10, .range (.mk (some (5, true)) none)]⟩
     let h : HeapTuple := ⟨1, [.val 7, .val 10, .range (.mk (some (5, true)) (some (9, false)))]⟩
     h.xmin = tA.xmin ∧
     (∀ j, j ≠ 3 - 1 → h.vals[j]? = tA.vals[j]?) ∧
     ∃ lo up, SPI_getbinval tA 3 = .range (.mk lo none) ∧
       h = modify_tuple tA 3 (.mk lo (some (up, false)))) ∧
    (let tA : HeapTuple := ⟨1, [.val 7, .val 10, .range (.mk (some (5, true)) none)]⟩
     let h : HeapTuple := ⟨1, [.val 7, .val 10, .range (.mk (some (5, true)) (some (9, false)))]⟩
     h.xmin = tA.xmin ∧
     (∀ j, j ≠ 3 - 1 → h.vals[j]? = tA.vals[j]?) ∧
     ∃ lo up, SPI_getbinval tA 3 = .range (.mk lo none) ∧
       h = modify_tuple tA 3 (.mk lo (some (up, false)))) :=
  ⟨(claim_C10_history_frame.1 ⟨4, [.val 1, .null, .val 2]⟩ 2
      (.mk (some (0, true)) none)).2.2 (by decide) (by decide),
   claim_C10_history_frame.2.1 2 9 "false" 3
     ⟨1, [.val 7, .val 10, .range (.mk (some (5, true)) none)]⟩
     ⟨2, [.val 7, .val 11, .range (.mk (some (5, true)) none)]⟩
     ⟨2, [.val 7, .val 11, .range (.mk (some (9, true)) none)]⟩
     ⟨1, [.val 7, .val 10, .range (.mk (some (5, true)) (some (9, false)))]⟩
     [] (by decide),
   claim_C10_history_frame.2.2 2 9 "false" 3
     ⟨1, [.val 7, .val 10, .range (.mk (some (5, true)) none)]⟩
     ⟨1, [.val 7, .val 10, .range (.mk (some (5, true)) none)]⟩
     ⟨1, [.val 7, .val 10, .range (.mk (some (5, true)) (some (9, false)))]⟩
     [] (by decide)⟩


/-! The transaction-scoped temporal-context stack (temporal_tables.c). -/

/-- `SystemTimeMode` (temporal_tables.h). -/
inductive SystemTimeMode where
  | CurrentTransactionStartTimestamp
  | UserDefined
deriving DecidableEq

/-- `TemporalContext` (temporal_tables.h); `subid = none` stands for
`InvalidSubTransactionId` and marks the session-root context. -/
structure TemporalContext where
  subid : Option Nat
  system_time_mode : SystemTimeMode
  system_time : TimestampTz
deriving DecidableEq

/-- The root context `_PG_init` creates (`palloc0`, so the time is 0). -/
def rootTemporalContext : TemporalContext :=
  ⟨none, .CurrentTransactionStartTimestamp, 0⟩

/-- `copy_temporal_context`: copy mode and time, set the subid. -/
def copy_temporal_context (src : TemporalContext) (subid : Option Nat) :
    TemporalContext :=
  { src with subid := subid }

/-- `push_temporal_context`: push a copy of the stack top tagged with the
given subtransaction id. -/
def push_temporal_context (subid : Nat) (stack : List TemporalContext) :
    List TemporalContext :=
  match stack with
  | [] => []
  | top :: rest => copy_temporal_context top (some subid) :: top :: rest

/-- `get_current_temporal_context` (temporal_tables.c): read-only access
returns the stack top and leaves the stack alone; write access returns the
top if it already belongs to the current subtransaction `cur`, and
otherwise pushes (and returns) a copy of the top tagged with `cur`. -/
def get_current_temporal_context (will_modify : Bool) (cur : Nat)
    (stack : List TemporalContext) : TemporalContext × List TemporalContext :=
  match stack with
  | [] => (rootTemporalContext, [])
  | ctx :: rest =>
      if ¬ will_modify then (ctx, ctx :: rest)
      else if ctx.subid = some cur then (ctx, ctx :: rest)
      else (copy_temporal_context ctx (some cur),
            push_temporal_context cur (ctx :: rest))

/-- `set_system_time` (versioning.c): obtain a write handle and set the
mode; a NULL argument resets to transaction-start-time mode. -/
def set_system_time (cur : Nat) (arg : Option TimestampTz)
    (stack : List TemporalContext) : List TemporalContext :=
  match get_current_temporal_context true cur stack with
  | (_, []) => []
  | (_, c :: rest) =>
      (match arg with
       | none => { c with system_time_mode := .CurrentTransactionStartTimestamp }
       | some t => { c with system_time_mode := .UserDefined, system_time := t })
        :: rest

inductive XactEvent where
  | commit | abort
deriving DecidableEq

inductive SubXactEvent where
  | commitSub | abortSub
deriving DecidableEq

/-- `temporal_tables_xact_callback` (temporal_tables.c): on top-level
commit/abort, pop a non-root top; on commit, additionally copy its
contents into the root that becomes the new top. -/
def temporal_tables_xact_callback (event : XactEvent)
    (stack : List TemporalContext) : List TemporalContext :=
  match stack with
  | [] => []
  | ctx :: rest =>
      if ctx.subid ≠ none then
        match event with
        | .abort => rest
        | .commit =>
            match rest with
            | [] => rest
            | _ :: rest2 => copy_temporal_context ctx none :: rest2
      else stack

/-- `temporal_tables_subxact_callback` (temporal_tables.c).  `mySubid` is
the ending subtransaction's id, which equals
`GetCurrentSubTransactionId()` at callback time; on commit the child
context is either relabelled with the parent id (when the context below
does not belong to the actual parent) or copied into the parent context. -/
def temporal_tables_subxact_callback (event : SubXactEvent)
    (mySubid parentSubid : Nat) (stack : List TemporalContext) :
    List TemporalContext :=
  match stack with
  | [] => []
  | ctx :: rest =>
      if ctx.subid = some mySubid then
        match event with
        | .abortSub => rest
        | .commitSub =>
            match rest with
            | [] => ctx :: rest
            | parent_ctx :: rest2 =>
                if parent_ctx.subid ≠ some parentSubid then
                  { ctx with subid := some parentSubid } :: rest
                else
                  copy_temporal_context ctx (some parentSubid) :: rest2
      else stack

/-- The observable reading mode of a context (`get_system_time` keys on
exactly this). -/
inductive TimeMode where
  | transactionStart
  | explicitTime (t : TimestampTz)
deriving DecidableEq

def ctxMode (c : TemporalContext) : TimeMode :=
  match c.system_time_mode with
  | .CurrentTransactionStartTimestamp => .transactionStart
  | .UserDefined => .explicitTime c.system_time

/-- Transaction-manager events interleaved with explicit-time sets. -/
inductive TxEvent where
  | beginXact
  | commitXact
  | abortXact
  | beginSub
  | commitSub
  | abortSub
  | setSystemTime (arg : Option TimestampTz)
deriving DecidableEq

/-- Joint state: the host transaction manager's nesting data (stack of
open subtransaction ids, innermost first, plus a fresh-id counter), the
implementation's context stack, and the specification state (root mode
plus one effective mode per open nesting level, innermost first). -/
structure TxSys where
  nesting : List Nat
  counter : Nat
  stack : List TemporalContext
  specRoot : TimeMode
  specLevels : List TimeMode

def initTxSys : TxSys :=
  { nesting := [], counter := 1, stack := [rootTemporalContext],
    specRoot := .transactionStart, specLevels := [] }

def modeOfArg (arg : Option TimestampTz) : TimeMode :=
  match arg with
  | none => .transactionStart
  | some t => .explicitTime t

/-- Modelled from the spec: the specification machine — each nesting
level carries the most recent explicit-time set in it or inherited from
its ancestors; commit folds a level into its parent (and the top level
into the root), abort discards the level. The implementation and this
machine step together on each transaction-manager event. -/
def txStep (s : TxSys) (e : TxEvent) : TxSys :=
  match e with
  | .beginXact =>
      match s.nesting with
      | [] =>
          { s with nesting := [s.counter], counter := s.counter + 1,
                   specLevels := [s.specRoot] }
      | _ => s
  | .commitXact =>
      match s.nesting with
      | [_] =>
          { s with nesting := [],
                   stack := temporal_tables_xact_callback .commit s.stack,
                   specRoot := s.specLevels.headD s.specRoot,
                   specLevels := [] }
      | _ => s
  | .abortXact =>
      match s.nesting with
      | [_] =>
          { s with nesting := [],
                   stack := temporal_tables_xact_callback .abort s.stack,
                   specLevels := [] }
      | _ => s
  | .beginSub =>
      match s.nesting with
      | [] => s
      | _ =>
          { s with nesting := s.counter :: s.nesting, counter := s.counter + 1,
                   specLevels := s.specLevels.headD s.specRoot :: s.specLevels }
  | .commitSub =>
      match s.nesting with
      | c :: p :: rest =>
          { s with nesting := p :: rest,
                   stack := temporal_tables_subxact_callback .commitSub c p s.stack,
                   specLevels := s.specLevels.headD s.specRoot :: s.specLevels.drop 2 }
      | _ => s
  | .abortSub =>
      match s.nesting with
      | c :: p :: rest =>
          { s with nesting := p :: rest,
                   stack := temporal_tables_subxact_callback .abortSub c p s.stack,
                   specLevels := s.specLevels.drop 1 }
      | _ => s
  | .setSystemTime arg =>
      match s.nesting with
      | [] => s
      | n :: _ =>
          { s with stack := set_system_time n arg s.stack,
                   specLevels := modeOfArg arg :: s.specLevels.drop 1 }

def txRun (es : List TxEvent) : TxSys :=
  es.foldl txStep initTxSys

/-- What a read-only caller observes in the implementation. -/
def implRead (s : TxSys) : TimeMode :=
  ctxMode (get_current_temporal_context false (s.nesting.headD 0) s.stack).1

/-- What the specification machine prescribes: the most recent surviving
explicit-time set in the current or an ancestor level, else the root. -/
def specRead (s : TxSys) : TimeMode :=
  s.specLevels.headD s.specRoot

def stackMode (stack : List TemporalContext) (r : TimeMode) : TimeMode :=
  match stack with
  | [] => r
  | c :: _ => ctxMode c

/-- Simulation relation between the implementation's sparse context stack
and the specification's per-level modes: each open nesting level either
owns the context at the matching depth (`push`) or inherits the mode of
the first context below (`skip`); the root context sits at the bottom. -/
inductive CtxSim : List TemporalContext → List Nat → List TimeMode → TimeMode → Prop
  | root (c : TemporalContext) (hsub : c.subid = none) (r : TimeMode)
      (hm : ctxMode c = r) : CtxSim [c] [] [] r
  | skip {stack : List TemporalContext} {ns : List Nat} {ls : List TimeMode}
      {r : TimeMode} (n : Nat) (h : CtxSim stack ns ls r) :
      CtxSim stack (n :: ns) (stackMode stack r :: ls) r
  | push {stack : List TemporalContext} {ns : List Nat} {ls : List TimeMode}
      {r : TimeMode} (n : Nat) (c : TemporalContext)
      (hsub : c.subid = some n) (h : CtxSim stack ns ls r) :
      CtxSim (c :: stack) (n :: ns) (ctxMode c :: ls) r

def TxInv (s : TxSys) : Prop :=
  CtxSim s.stack s.nesting s.specLevels s.specRoot ∧
  s.nesting.Nodup ∧ (∀ m ∈ s.nesting, m < s.counter)


theorem ctxSim_ne_nil {stack : List TemporalContext} {ns : List Nat}
    {ls : List TimeMode} {r : TimeMode} (h : CtxSim stack ns ls r) :
    stack ≠ [] := by
  induction h with
  | root c hsub r hm => simp
  | skip n h ih => exact ih
  | push n c hsub h ih => simp

theorem ctxSim_subids {stack : List TemporalContext} {ns : List Nat}
    {ls : List TimeMode} {r : TimeMode} (h : CtxSim stack ns ls r) :
    ∀ c ∈ stack, c.subid = none ∨ ∃ m ∈ ns, c.subid = some m := by
  induction h with
  | root c hsub r hm =>
    intro x hx
    simp at hx
    subst hx
    exact .inl hsub
  | skip n h ih =>
    intro x hx
    rcases ih x hx with h1 | ⟨m, hm, h2⟩
    · exact .inl h1
    · exact .inr ⟨m, List.mem_cons_of_mem _ hm, h2⟩
  | push n c hsub h ih =>
    intro x hx
    rcases List.mem_cons.mp hx with rfl | hx2
    · exact .inr ⟨n, List.mem_cons_self _ _, hsub⟩
    · rcases ih x hx2 with h1 | ⟨m, hm, h2⟩
      · exact .inl h1
      · exact .inr ⟨m, List.mem_cons_of_mem _ hm, h2⟩

theorem ctxSim_read {stack : List TemporalContext} {ns : List Nat}
    {ls : List TimeMode} {r : TimeMode} (h : CtxSim stack ns ls r) :
    stackMode stack r = ls.headD r := by
  cases h with
  | root c hsub r hm => simpa [stackMode] using hm
  | skip n h => rfl
  | push n c hsub h => rfl

/-- The top of the implementation stack does not belong to nesting level
`n` when level `n` has no context of its own (skip case). -/
theorem ctxSim_top_ne {stack : List TemporalContext} {ns : List Nat}
    {ls : List TimeMode} {r : TimeMode} (h : CtxSim stack ns ls r)
    (n : Nat) (hn : n ∉ ns) (c0 : TemporalContext) (st0 : List TemporalContext)
    (hs : stack = c0 :: st0) : c0.subid ≠ some n := by
  subst hs
  rcases ctxSim_subids h c0 (List.mem_cons_self _ _) with h1 | ⟨m, hm, h2⟩
  · simp [h1]
  · rw [h2]
    intro hc
    injection hc with hc2
    exact hn (hc2 ▸ hm)



theorem set_system_time_push (n : Nat) (arg : Option TimestampTz)
    (c0 : TemporalContext) (st0 : List TemporalContext)
    (hne : c0.subid ≠ some n) :
    set_system_time n arg (c0 :: st0) =
      (match arg with
       | none => { c0 with
                   subid := some n,
                   system_time_mode := .CurrentTransactionStartTimestamp }
       | some t => { c0 with
                     subid := some n,
                     system_time_mode := .UserDefined,
                     system_time := t })
        :: c0 :: st0 := by
  cases arg <;>
    simp [set_system_time, get_current_temporal_context, push_temporal_context,
          copy_temporal_context, hne]

theorem set_system_time_top (n : Nat) (arg : Option TimestampTz)
    (c0 : TemporalContext) (st0 : List TemporalContext)
    (heq : c0.subid = some n) :
    set_system_time n arg (c0 :: st0) =
      (match arg with
       | none => { c0 with
                   system_time_mode := .CurrentTransactionStartTimestamp }
       | some t => { c0 with
                     system_time_mode := .UserDefined,
                     system_time := t })
        :: st0 := by
  cases arg <;>
    simp [set_system_time, get_current_temporal_context, heq]

theorem subxact_callback_noop (event : SubXactEvent) (cId p : Nat)
    (c0 : TemporalContext) (st0 : List TemporalContext)
    (hne : c0.subid ≠ some cId) :
    temporal_tables_subxact_callback event cId p (c0 :: st0) = c0 :: st0 := by
  simp [temporal_tables_subxact_callback, hne]

theorem ctxSim_cons_of_ne_nil {stack : List TemporalContext} {ns : List Nat}
    {ls : List TimeMode} {r : TimeMode} (h : CtxSim stack ns ls r) :
    ∃ c0 st0, stack = c0 :: st0 := by
  cases hstk : stack with
  | nil => exact absurd hstk (ctxSim_ne_nil h)
  | cons a b => exact ⟨a, b, rfl⟩

/-! One simulation-preservation lemma per event. -/

theorem ctxSim_beginXact {stack : List TemporalContext} {ls : List TimeMode}
    {r : TimeMode} (counter : Nat) (h : CtxSim stack [] ls r) :
    CtxSim stack [counter] [r] r := by
  cases h with
  | root c hsub r hm =>
    have h2 := CtxSim.skip counter (CtxSim.root c hsub r hm)
    simpa [stackMode, hm] using h2

theorem ctxSim_commitXact {stack : List TemporalContext} {n1 : Nat}
    {ls : List TimeMode} {r : TimeMode} (h : CtxSim stack [n1] ls r) :
    CtxSim (temporal_tables_xact_callback .commit stack) [] [] (ls.headD r) := by
  cases h with
  | @skip _ _ ls1 _ _ h1 =>
    cases h1 with
    | root c hsub r hm =>
      have hcb : temporal_tables_xact_callback .commit [c] = [c] := by
        simp [temporal_tables_xact_callback, hsub]
      rw [hcb]
      exact CtxSim.root c hsub _ rfl
  | @push st _ ls1 _ _ c hsub h1 =>
    cases h1 with
    | root c0 hsub0 r hm0 =>
      have hcb : temporal_tables_xact_callback .commit (c :: [c0]) =
          [copy_temporal_context c none] := by
        simp [temporal_tables_xact_callback, hsub]
      rw [hcb]
      exact CtxSim.root _ rfl _ rfl

theorem ctxSim_abortXact {stack : List TemporalContext} {n1 : Nat}
    {ls : List TimeMode} {r : TimeMode} (h : CtxSim stack [n1] ls r) :
    CtxSim (temporal_tables_xact_callback .abort stack) [] [] r := by
  cases h with
  | @skip _ _ ls1 _ _ h1 =>
    cases h1 with
    | root c hsub r hm =>
      have hcb : temporal_tables_xact_callback .abort [c] = [c] := by
        simp [temporal_tables_xact_callback, hsub]
      rw [hcb]
      exact CtxSim.root c hsub _ hm
  | @push st _ ls1 _ _ c hsub h1 =>
    cases h1 with
    | root c0 hsub0 r hm0 =>
      have hcb : temporal_tables_xact_callback .abort (c :: [c0]) = [c0] := by
        simp [temporal_tables_xact_callback, hsub]
      rw [hcb]
      exact CtxSim.root c0 hsub0 _ hm0

theorem ctxSim_beginSub {stack : List TemporalContext} {ns : List Nat}
    {ls : List TimeMode} {r : TimeMode} (counter : Nat)
    (h : CtxSim stack ns ls r) :
    CtxSim stack (counter :: ns) (ls.headD r :: ls) r := by
  have h2 := CtxSim.skip counter h
  rwa [ctxSim_read h] at h2

theorem ctxSim_commitSub {stack : List TemporalContext} {cId p : Nat}
    {rest : List Nat} {ls : List TimeMode} {r : TimeMode}
    (h : CtxSim stack (cId :: p :: rest) ls r)
    (hnm : cId ∉ p :: rest) (hpm : p ∉ rest) :
    CtxSim (temporal_tables_subxact_callback .commitSub cId p stack)
      (p :: rest) (ls.headD r :: ls.drop 2) r := by
  cases h with
  | @skip _ _ ls1 _ _ h1 =>
    obtain ⟨c0, st0, hs⟩ := ctxSim_cons_of_ne_nil h1
    have hne := ctxSim_top_ne h1 cId hnm c0 st0 hs
    subst hs
    rw [subxact_callback_noop .commitSub cId p c0 st0 hne]
    cases h1 with
    | @skip _ _ ls2 _ _ h2 => exact CtxSim.skip p h2
    | @push _ _ ls2 _ _ _ hsub2 h2 => exact CtxSim.push p c0 hsub2 h2
  | @push st _ ls1 _ _ c hsub h1 =>
    obtain ⟨c1, st1, hs⟩ := ctxSim_cons_of_ne_nil h1
    subst hs
    by_cases hp : c1.subid = some p
    · have hcb : temporal_tables_subxact_callback .commitSub cId p (c :: c1 :: st1) =
          copy_temporal_context c (some p) :: st1 := by
        simp [temporal_tables_subxact_callback, hsub, hp]
      rw [hcb]
      cases h1 with
      | @skip _ _ ls2 _ _ h2 =>
        exact absurd hp (ctxSim_top_ne h2 p hpm c1 st1 rfl)
      | @push _ _ ls2 _ _ _ hsub2 h2 =>
        exact CtxSim.push p _ rfl h2
    · have hcb : temporal_tables_subxact_callback .commitSub cId p (c :: c1 :: st1) =
          { c with subid := some p } :: c1 :: st1 := by
        simp [temporal_tables_subxact_callback, hsub, hp]
      rw [hcb]
      cases h1 with
      | @skip _ _ ls2 _ _ h2 =>
        exact CtxSim.push p _ rfl h2
      | @push _ _ ls2 _ _ _ hsub2 h2 =>
        exact absurd hsub2 hp

theorem ctxSim_abortSub {stack : List TemporalContext} {cId p : Nat}
    {rest : List Nat} {ls : List TimeMode} {r : TimeMode}
    (h : CtxSim stack (cId :: p :: rest) ls r)
    (hnm : cId ∉ p :: rest) :
    CtxSim (temporal_tables_subxact_callback .abortSub cId p stack)
      (p :: rest) (ls.drop 1) r := by
  cases h with
  | @skip _ _ ls1 _ _ h1 =>
    obtain ⟨c0, st0, hs⟩ := ctxSim_cons_of_ne_nil h1
    have hne := ctxSim_top_ne h1 cId hnm c0 st0 hs
    subst hs
    rw [subxact_callback_noop .abortSub cId p c0 st0 hne]
    exact h1
  | @push st _ ls1 _ _ c hsub h1 =>
    have hcb : temporal_tables_subxact_callback .abortSub cId p (c :: st) = st := by
      simp [temporal_tables_subxact_callback, hsub]
    rw [hcb]
    exact h1

theorem ctxSim_set {stack : List TemporalContext} {n : Nat} {ns : List Nat}
    {ls : List TimeMode} {r : TimeMode} (arg : Option TimestampTz)
    (h : CtxSim stack (n :: ns) ls r) (hnm : n ∉ ns) :
    CtxSim (set_system_time n arg stack) (n :: ns) (modeOfArg arg :: ls.drop 1) r := by
  cases h with
  | @skip _ _ ls1 _ _ h1 =>
    obtain ⟨c0, st0, hs⟩ := ctxSim_cons_of_ne_nil h1
    have hne := ctxSim_top_ne h1 n hnm c0 st0 hs
    subst hs
    rw [set_system_time_push n arg c0 st0 hne]
    cases arg with
    | none => exact CtxSim.push n _ rfl h1
    | some t => exact CtxSim.push n _ rfl h1
  | @push st _ ls1 _ _ c hsub h1 =>
    rw [set_system_time_top n arg c st hsub]
    cases arg with
    | none => exact CtxSim.push n _ hsub h1
    | some t => exact CtxSim.push n _ hsub h1

theorem txInv_step (s : TxSys) (e : TxEvent) (h : TxInv s) : TxInv (txStep s e) := by
  obtain ⟨nesting, counter, stack, specRoot, specLevels⟩ := s
  have hsim : CtxSim stack nesting specLevels specRoot := h.1
  have hnd : nesting.Nodup := h.2.1
  have hbd : ∀ m ∈ nesting, m < counter := h.2.2
  cases e with
  | beginXact =>
    cases nesting with
    | nil =>
      exact ⟨ctxSim_beginXact counter hsim,
             List.nodup_singleton counter,
             (by
               intro m hm2
               have : m = counter := List.mem_singleton.mp hm2
               omega : ∀ m ∈ [counter], m < counter + 1)⟩
    | cons n ns => exact ⟨hsim, hnd, hbd⟩
  | commitXact =>
    cases nesting with
    | nil => exact ⟨hsim, hnd, hbd⟩
    | cons n1 ns =>
      cases ns with
      | cons n2 ns2 => exact ⟨hsim, hnd, hbd⟩
      | nil =>
        exact ⟨ctxSim_commitXact hsim, List.nodup_nil, by intro m hm2; cases hm2⟩
  | abortXact =>
    cases nesting with
    | nil => exact ⟨hsim, hnd, hbd⟩
    | cons n1 ns =>
      cases ns with
      | cons n2 ns2 => exact ⟨hsim, hnd, hbd⟩
      | nil =>
        exact ⟨ctxSim_abortXact hsim, List.nodup_nil, by intro m hm2; cases hm2⟩
  | beginSub =>
    cases nesting with
    | nil => exact ⟨hsim, hnd, hbd⟩
    | cons n ns =>
      exact ⟨ctxSim_beginSub counter hsim,
             (by
               refine List.Nodup.cons ?_ hnd
               intro hmem
               exact absurd (hbd counter hmem) (lt_irrefl counter) :
                 (counter :: n :: ns).Nodup),
             (by
               intro m hm2
               rcases List.mem_cons.mp hm2 with rfl | hm3
               · omega
               · have := hbd m hm3
                 omega : ∀ m ∈ counter :: n :: ns, m < counter + 1)⟩
  | commitSub =>
    cases nesting with
    | nil => exact ⟨hsim, hnd, hbd⟩
    | cons cId ns =>
      cases ns with
      | nil => exact ⟨hsim, hnd, hbd⟩
      | cons p rest =>
        have hnotmem : cId ∉ p :: rest := (List.nodup_cons.mp hnd).1
        have hnd2 : (p :: rest).Nodup := (List.nodup_cons.mp hnd).2
        have hpm : p ∉ rest := (List.nodup_cons.mp hnd2).1
        exact ⟨ctxSim_commitSub hsim hnotmem hpm, hnd2,
               fun m hm2 => hbd m (List.mem_cons_of_mem _ hm2)⟩
  | abortSub =>
    cases nesting with
    | nil => exact ⟨hsim, hnd, hbd⟩
    | cons cId ns =>
      cases ns with
      | nil => exact ⟨hsim, hnd, hbd⟩
      | cons p rest =>
        have hnotmem : cId ∉ p :: rest := (List.nodup_cons.mp hnd).1
        have hnd2 : (p :: rest).Nodup := (List.nodup_cons.mp hnd).2
        exact ⟨ctxSim_abortSub hsim hnotmem, hnd2,
               fun m hm2 => hbd m (List.mem_cons_of_mem _ hm2)⟩
  | setSystemTime arg =>
    cases nesting with
    | nil => exact ⟨hsim, hnd, hbd⟩
    | cons n ns =>
      exact ⟨ctxSim_set arg hsim (List.nodup_cons.mp hnd).1, hnd, hbd⟩


theorem txInv_init : TxInv initTxSys :=
  ⟨CtxSim.root rootTemporalContext rfl .transactionStart rfl, List.nodup_nil,
   fun m hm => absurd hm (List.not_mem_nil m)⟩

theorem txInv_run (es : List TxEvent) : TxInv (txRun es) := by
  have hgen : ∀ (l : List TxEvent) (s : TxSys), TxInv s → TxInv (l.foldl txStep s) := by
    intro l
    induction l with
    | nil => intro s hs; exact hs
    | cons e l2 ih => intro s hs; exact ih _ (txInv_step s e hs)
  exact hgen es initTxSys txInv_init

/-- Claim C3: for every sequence of transaction and subtransaction
begin/commit/abort events interleaved with explicit-time sets, the context
a read-only caller observes equals the specification machine's value: the
most recent explicit-time set made in the current or an ancestor nesting
level that has not been aborted, or the transaction-start-time mode if
none was set (outer commit folding the top context into the root, outer
abort restoring the unmodified root, subtransaction commit propagating the
child context to its parent level by relabel or copy, and subtransaction
abort discarding the child context). -/
theorem claim_C3_context_refinement :
    ∀ es : List TxEvent, implRead (txRun es) = specRead (txRun es) := by
  intro es
  obtain ⟨hsim, -, -⟩ := txInv_run es
  obtain ⟨c0, st0, hs⟩ := ctxSim_cons_of_ne_nil hsim
  have h1 : implRead (txRun es) = stackMode (txRun es).stack (txRun es).specRoot := by
    rw [implRead, hs]
    simp [get_current_temporal_context, stackMode]
  rw [h1, ctxSim_read hsim]
  rfl

/-- Claim C7: read-only context access returns the stack top without
modifying the stack; write access returns the top directly when it
belongs to the active nesting level and otherwise pushes and returns a
copy (same mode and time) tagged with the active level; `set_system_time`
sets UserDefined mode with the given timestamp on such a write handle,
and a NULL argument resets to transaction-start-time mode. -/
theorem claim_C7_context_access :
    (∀ (cur : Nat) (c : TemporalContext) (rest : List TemporalContext),
      get_current_temporal_context false cur (c :: rest) = (c, c :: rest)) ∧
    (∀ (cur : Nat) (c : TemporalContext) (rest : List TemporalContext),
      c.subid = some cur →
      get_current_temporal_context true cur (c :: rest) = (c, c :: rest)) ∧
    (∀ (cur : Nat) (c : TemporalContext) (rest : List TemporalContext),
      c.subid ≠ some cur →
      ∃ c2, get_current_temporal_context true cur (c :: rest) = (c2, c2 :: c :: rest) ∧
        c2.subid = some cur ∧ c2.system_time_mode = c.system_time_mode ∧
        c2.system_time = c.system_time) ∧
    (∀ (cur : Nat) (t : TimestampTz) (c : TemporalContext)
       (rest : List TemporalContext),
      ∃ c2 rest2, set_system_time cur (some t) (c :: rest) = c2 :: rest2 ∧
        c2.system_time_mode = .UserDefined ∧ c2.system_time = t) ∧
    (∀ (cur : Nat) (c : TemporalContext) (rest : List TemporalContext),
      ∃ c2 rest2, set_system_time cur none (c :: rest) = c2 :: rest2 ∧
        c2.system_time_mode = .CurrentTransactionStartTimestamp) := by
  refine ⟨?_, ?_, ?_, ?_, ?_⟩
  · intro cur c rest
    simp [get_current_temporal_context]
  · intro cur c rest h
    simp [get_current_temporal_context, h]
  · intro cur c rest h
    refine ⟨copy_temporal_context c (some cur), ?_, rfl, rfl, rfl⟩
    simp [get_current_temporal_context, h, push_temporal_context]
  · intro cur t c rest
    by_cases h : c.subid = some cur
    · exact ⟨_, _, set_system_time_top cur (some t) c rest h, rfl, rfl⟩
    · exact ⟨_, _, set_system_time_push cur (some t) c rest h, rfl, rfl⟩
  · intro cur c rest
    by_cases h : c.subid = some cur
    · exact ⟨_, _, set_system_time_top cur none c rest h, rfl⟩
    · exact ⟨_, _, set_system_time_push cur none c rest h, rfl⟩

/-- Witness for C7. -/
theorem claim_C7_witness :
    (get_current_temporal_context false 4
        (⟨some 2, .UserDefined, 9⟩ :: [rootTemporalContext]) =
      (⟨some 2, .UserDefined, 9⟩,
       ⟨some 2, .UserDefined, 9⟩ :: [rootTemporalContext])) ∧
    (get_current_temporal_context true 2
        (⟨some 2, .UserDefined, 9⟩ :: [rootTemporalContext]) =
      (⟨some 2, .UserDefined, 9⟩,
       ⟨some 2, .UserDefined, 9⟩ :: [rootTemporalContext])) ∧
    (∃ c2, get_current_temporal_context true 4
        (⟨some 2, .UserDefined, 9⟩ :: [rootTemporalContext]) =
        (c2, c2 :: ⟨some 2, .UserDefined, 9⟩ :: [rootTemporalContext]) ∧
      c2.subid = some 4 ∧
      c2.system_time_mode = (⟨some 2, .UserDefined, 9⟩ : TemporalContext).system_time_mode ∧
      c2.system_time = (⟨some 2, .UserDefined, 9⟩ : TemporalContext).system_time) ∧
    (∃ c2 rest2, set_system_time 4 (some 11)
        (⟨some 2, .UserDefined, 9⟩ :: [rootTemporalContext]) = c2 :: rest2 ∧
      c2.system_time_mode = .UserDefined ∧ c2.system_time = 11) ∧
    (∃ c2 rest2, set_system_time 4 none
        (⟨some 2, .UserDefined, 9⟩ :: [rootTemporalContext]) = c2 :: rest2 ∧
      c2.system_time_mode = .CurrentTransactionStartTimestamp) :=
  ⟨claim_C7_context_access.1 4 ⟨some 2, .UserDefined, 9⟩ [rootTemporalContext],
   claim_C7_context_access.2.1 2 ⟨some 2, .UserDefined, 9⟩ [rootTemporalContext] rfl,
   claim_C7_context_access.2.2.1 4 ⟨some 2, .UserDefined, 9⟩ [rootTemporalContext]
     (by decide),
   claim_C7_context_access.2.2.2.1 4 11 ⟨some 2, .UserDefined, 9⟩ [rootTemporalContext],
   claim_C7_context_access.2.2.2.2 4 ⟨some 2, .UserDefined, 9⟩ [rootTemporalContext]⟩


/-! The per-relation metadata cache (versioning.c). -/

/-- One attribute of a relation's tuple descriptor, with the fields the
extension inspects. -/
structure Attr where
  attname : String
  atttypid : Nat
  attndims : Nat
  atttypmod : Int
  attisdropped : Bool
deriving DecidableEq

def defaultAttr : Attr := ⟨"", 0, 0, 0, false⟩

def SPI_fnumber_from (tupdesc : List Attr) (fname : String) (i : Int) : Int :=
  match tupdesc with
  | [] => -1
  | a :: rest =>
      if a.attname = fname ∧ ¬a.attisdropped then i
      else SPI_fnumber_from rest fname (i + 1)

/-- `SPI_fnumber`: 1-based number of the first non-dropped attribute with
the given name, negative (`SPI_ERROR_NOATTRIBUTE`) when absent. -/
def SPI_fnumber (tupdesc : List Attr) (fname : String) : Int :=
  SPI_fnumber_from tupdesc fname 1

/-- `check_attr_type` (versioning.c): same base type, dimensionality and
type modifier between a versioned column and its history counterpart. -/
def check_attr_type (attr history_attr : Attr) : Except VersioningError Unit :=
  if attr.atttypid ≠ history_attr.atttypid ∨ attr.attndims ≠ history_attr.attndims ∨
     attr.atttypmod ≠ history_attr.atttypmod
  then .error (.datatypeMismatch attr.attname)
  else .ok ()

/-- The common-attribute loop of `fill_versioning_hash_entry`: for every
non-dropped versioned column that also exists by name in the history
relation, check type parity and record (versioned attnum, history attnum);
`i` is the current 1-based attribute number. -/
def collect_common_attnums (history_tupdesc : List Attr) :
    List Attr → Int → Except VersioningError (List (Int × Int))
  | [], _ => .ok []
  | attr :: rest, i =>
      if attr.attisdropped then collect_common_attnums history_tupdesc rest (i + 1)
      else
        let history_attnum := SPI_fnumber history_tupdesc attr.attname
        if history_attnum < 0 then
          collect_common_attnums history_tupdesc rest (i + 1)
        else do
          let _ ← check_attr_type attr
                    (history_tupdesc.getD (history_attnum.toNat - 1) defaultAttr)
          let t ← collect_common_attnums history_tupdesc rest (i + 1)
          .ok ((i, history_attnum) :: t)

/-- `VersioningHashEntry` (versioning.c): `natts = -1` marks the entry
invalid; `history_relid = 0` is `InvalidOid` (the field is only assigned
during a successful rebuild with common columns). -/
structure VersioningHashEntry where
  relid : Nat
  history_relid : Nat
  tupdesc : Option (List Attr)
  history_tupdesc : Option (List Attr)
  natts : Int
  attnums : Option (List Int)
  insert_history_plan : Option (List Nat)
deriving DecidableEq

/-- A missing entry as `hash_entry_alloc` + `lookup_versioning_hash_entry`
produce it: zeroed, marked invalid. -/
def freshHashEntry (relid : Nat) : VersioningHashEntry :=
  ⟨relid, 0, none, none, -1, none, none⟩

structure VersioningCache where
  entries : List (Nat × VersioningHashEntry)
deriving DecidableEq

/-- `lookup_versioning_hash_entry` (`hash_search` with `HASH_ENTER`):
return (entry, found, cache); a miss inserts a fresh invalid entry. -/
def lookup_versioning_hash_entry (relid : Nat) (cache : VersioningCache) :
    VersioningHashEntry × Bool × VersioningCache :=
  match cache.entries.find? (fun pr => pr.1 = relid) with
  | some pr => (pr.2, true, cache)
  | none => (freshHashEntry relid, false,
             ⟨(relid, freshHashEntry relid) :: cache.entries⟩)

/-- Persist the (mutated-in-place in C) entry under its key. -/
def store_hash_entry (relid : Nat) (e : VersioningHashEntry)
    (cache : VersioningCache) : VersioningCache :=
  ⟨cache.entries.map (fun pr => if pr.1 = relid then (relid, e) else pr)⟩

/-- The invalidation block of `insert_history_row`: mark the entry
invalid and free the descriptors, the column mapping and the prepared
plan. -/
def invalidate_hash_entry (e : VersioningHashEntry) : VersioningHashEntry :=
  { e with natts := -1, tupdesc := none, history_tupdesc := none,
           attnums := none, insert_history_plan := none }

/-- The staleness test of `insert_history_row`: entry marked invalid, or
cached history-relation identity differs, or either cached descriptor no
longer equals the live one. -/
def hash_entry_stale (e : VersioningHashEntry) (history_relid : Nat)
    (tupdesc history_tupdesc : List Attr) : Bool :=
  e.natts = -1 ∨ history_relid ≠ e.history_relid ∨
    some tupdesc ≠ e.tupdesc ∨ some history_tupdesc ≠ e.history_tupdesc

/-- `fill_versioning_hash_entry` (versioning.c): require the period column
in the history relation, collect the common columns with type parity,
prepare the insert plan, and only at the very end set `natts`, marking the
entry valid; on error the entry is left as it was. -/
def fill_versioning_hash_entry (hash_entry : VersioningHashEntry)
    (history_relid : Nat) (tupdesc history_tupdesc : List Attr)
    (period_attname : String) : Except VersioningError VersioningHashEntry :=
  if SPI_fnumber history_tupdesc period_attname < 0 then
    .error (.historyRelationMissingPeriodColumn period_attname)
  else do
    let pairs ← collect_common_attnums history_tupdesc tupdesc 1
    if pairs.length ≠ 0 then
      .ok { hash_entry with
            insert_history_plan :=
              some (pairs.map fun pr =>
                (history_tupdesc.getD (pr.2.toNat - 1) defaultAttr).atttypid),
            history_relid := history_relid,
            tupdesc := some tupdesc,
            history_tupdesc := some history_tupdesc,
            attnums := some (pairs.map Prod.fst),
            natts := (pairs.length : Int) }
    else .ok { hash_entry with natts := 0 }

/-- Execute the prepared insert (`SPI_execp`): project the archived tuple
onto the common attributes; a no-op when there are none. -/
def execute_insert_plan (e : VersioningHashEntry) (tuple : HeapTuple) : List Datum :=
  if e.natts ≠ 0 then (e.attnums.getD []).map (fun a => SPI_getbinval tuple a.toNat)
  else []

structure InsertHistoryResult where
  cache : VersioningCache
  rebuilt : Bool
  outcome : Except VersioningError (List Datum)
deriving DecidableEq

/-- The cache-maintenance logic of `insert_history_row` (versioning.c):
look the versioned relation's OID up (a miss creates an invalid entry),
discard and rebuild the cached data when the entry is invalid or stale,
then execute the prepared plan; a failed rebuild leaves the stored entry
invalid. -/
def insert_history_row_cached (tuple : HeapTuple) (relid : Nat)
    (tupdesc : List Attr) (history_relid : Nat) (history_tupdesc : List Attr)
    (period_attname : String) (cache : VersioningCache) : InsertHistoryResult :=
  let lfc := lookup_versioning_hash_entry relid cache
  let ef :=
    if lfc.2.1 then
      if hash_entry_stale lfc.1 history_relid tupdesc history_tupdesc then
        (invalidate_hash_entry lfc.1, false)
      else (lfc.1, true)
    else (lfc.1, false)
  if ef.2 then
    { cache := store_hash_entry relid ef.1 lfc.2.2, rebuilt := false,
      outcome := .ok (execute_insert_plan ef.1 tuple) }
  else
    match fill_versioning_hash_entry ef.1 history_relid tupdesc history_tupdesc
            period_attname with
    | .error err =>
        { cache := store_hash_entry relid ef.1 lfc.2.2, rebuilt := true,
          outcome := .error err }
    | .ok e2 =>
        { cache := store_hash_entry relid e2 lfc.2.2, rebuilt := true,
          outcome := .ok (execute_insert_plan e2 tuple) }


theorem find_store_entries (relid : Nat) (e : VersioningHashEntry)
    (l : List (Nat × VersioningHashEntry))
    (h : (l.find? (fun pr => pr.1 = relid)).isSome = true) :
    (l.map (fun pr => if pr.1 = relid then (relid, e) else pr)).find?
      (fun pr => pr.1 = relid) = some (relid, e) := by
  induction l with
  | nil => simp [List.find?] at h
  | cons hd tl ih =>
    by_cases hk : hd.1 = relid
    · simp [List.find?_cons, hk]
    · simp only [List.find?_cons, hk, decide_False, List.map_cons, if_neg hk] at h ⊢
      simpa [hk] using ih (by simpa [hk] using h)

theorem store_find (relid : Nat) (e : VersioningHashEntry)
    (cache : VersioningCache)
    (h : (cache.entries.find? (fun pr => pr.1 = relid)).isSome = true) :
    (store_hash_entry relid e cache).entries.find? (fun pr => pr.1 = relid) =
      some (relid, e) :=
  find_store_entries relid e cache.entries h


/-- Shape of `insert_history_row_cached` on a cache miss. -/
theorem insert_history_miss (tuple : HeapTuple) (relid : Nat) (td : List Attr)
    (hrelid : Nat) (htd : List Attr) (pan : String) (cache : VersioningCache)
    (hfind : cache.entries.find? (fun q => q.1 = relid) = none) :
    insert_history_row_cached tuple relid td hrelid htd pan cache =
      (match fill_versioning_hash_entry (freshHashEntry relid) hrelid td htd pan with
       | .error err =>
           ⟨store_hash_entry relid (freshHashEntry relid)
              ⟨(relid, freshHashEntry relid) :: cache.entries⟩, true, .error err⟩
       | .ok e2 =>
           ⟨store_hash_entry relid e2 ⟨(relid, freshHashEntry relid) :: cache.entries⟩,
            true, .ok (execute_insert_plan e2 tuple)⟩) := by
  have hlk : lookup_versioning_hash_entry relid cache =
      (freshHashEntry relid, false,
       ⟨(relid, freshHashEntry relid) :: cache.entries⟩) := by
    simp [lookup_versioning_hash_entry, hfind]
  rw [insert_history_row_cached, hlk]
  simp only [Bool.false_eq_true, if_false]

/-- Shape of `insert_history_row_cached` on a stale (or invalid) hit. -/
theorem insert_history_hit_stale (tuple : HeapTuple) (relid : Nat) (td : List Attr)
    (hrelid : Nat) (htd : List Attr) (pan : String) (cache : VersioningCache)
    (pr : Nat × VersioningHashEntry)
    (hfind : cache.entries.find? (fun q => q.1 = relid) = some pr)
    (hst : hash_entry_stale pr.2 hrelid td htd = true) :
    insert_history_row_cached tuple relid td hrelid htd pan cache =
      (match fill_versioning_hash_entry (invalidate_hash_entry pr.2) hrelid td htd pan with
       | .error err =>
           ⟨store_hash_entry relid (invalidate_hash_entry pr.2) cache, true, .error err⟩
       | .ok e2 =>
           ⟨store_hash_entry relid e2 cache, true,
            .ok (execute_insert_plan e2 tuple)⟩) := by
  have hlk : lookup_versioning_hash_entry relid cache = (pr.2, true, cache) := by
    simp [lookup_versioning_hash_entry, hfind]
  rw [insert_history_row_cached, hlk]
  simp only [hst, if_true, Bool.false_eq_true, if_false]

/-- Shape of `insert_history_row_cached` on a valid hit. -/
theorem insert_history_hit_valid (tuple : HeapTuple) (relid : Nat) (td : List Attr)
    (hrelid : Nat) (htd : List Attr) (pan : String) (cache : VersioningCache)
    (pr : Nat × VersioningHashEntry)
    (hfind : cache.entries.find? (fun q => q.1 = relid) = some pr)
    (hst : hash_entry_stale pr.2 hrelid td htd = false) :
    insert_history_row_cached tuple relid td hrelid htd pan cache =
      ⟨store_hash_entry relid pr.2 cache, false,
       .ok (execute_insert_plan pr.2 tuple)⟩ := by
  have hlk : lookup_versioning_hash_entry relid cache = (pr.2, true, cache) := by
    simp [lookup_versioning_hash_entry, hfind]
  rw [insert_history_row_cached, hlk]
  simp only [hst, Bool.false_eq_true, if_false, if_true]

/-- A successful rebuild always produces a valid (`natts ≥ 0`) entry. -/
theorem fill_versioning_ok_valid {hash_entry : VersioningHashEntry} {hrelid : Nat}
    {td htd : List Attr} {pan : String} {e2 : VersioningHashEntry}
    (h : fill_versioning_hash_entry hash_entry hrelid td htd pan = .ok e2) :
    0 ≤ e2.natts := by
  rw [fill_versioning_hash_entry] at h
  split at h
  · cases h
  · rcases hcol : collect_common_attnums htd td 1 with err | pairs <;> rw [hcol] at h
    · rw [except_bind_error] at h
      cases h
    · rw [except_bind_ok] at h
      split at h <;> injection h with h2 <;> subst h2
      · exact Int.natCast_nonneg pairs.length
      · exact le_refl 0


/-- A stored invalid entry forces a rebuild on the next invocation. -/
theorem insert_history_rebuilt_of_invalid (tuple : HeapTuple) (relid : Nat)
    (td : List Attr) (hrelid : Nat) (htd : List Attr) (pan : String)
    (cache2 : VersioningCache) (e : VersioningHashEntry)
    (hfind2 : cache2.entries.find? (fun q => q.1 = relid) = some (relid, e))
    (hnat : e.natts = -1) :
    (insert_history_row_cached tuple relid td hrelid htd pan cache2).rebuilt = true := by
  have hst : hash_entry_stale e hrelid td htd = true := by
    simp [hash_entry_stale, hnat]
  rw [insert_history_hit_stale tuple relid td hrelid htd pan cache2 (relid, e) hfind2 hst]
  split <;> rfl

/-- Claim C5: the metadata cache entry is rebuilt (after discarding the
prepared plan and the column mapping and marking the entry invalid)
exactly when the entry is marked invalid, the cached history-relation
identity differs from the live one, or either cached schema snapshot no
longer equals the live one; a failed rebuild stores an invalid entry with
plan and mapping discarded, so the next invocation rebuilds again, and the
stored entry is valid only when the rebuild succeeded. -/
theorem claim_C5_cache_rebuild :
    ∀ (tuple : HeapTuple) (relid : Nat) (tupdesc : List Attr)
      (history_relid : Nat) (history_tupdesc : List Attr)
      (period_attname : String) (cache : VersioningCache),
      ((insert_history_row_cached tuple relid tupdesc history_relid
           history_tupdesc period_attname cache).rebuilt = true ↔
        ((lookup_versioning_hash_entry relid cache).1.natts = -1 ∨
         history_relid ≠ (lookup_versioning_hash_entry relid cache).1.history_relid ∨
         some tupdesc ≠ (lookup_versioning_hash_entry relid cache).1.tupdesc ∨
         some history_tupdesc ≠
           (lookup_versioning_hash_entry relid cache).1.history_tupdesc)) ∧
      (∀ err,
        (insert_history_row_cached tuple relid tupdesc history_relid
            history_tupdesc period_attname cache).outcome = .error err →
        ∃ e, ((insert_history_row_cached tuple relid tupdesc history_relid
                 history_tupdesc period_attname cache).cache.entries.find?
               (fun q => q.1 = relid)) = some (relid, e) ∧
          e.natts = -1 ∧ e.insert_history_plan = none ∧ e.attnums = none) ∧
      (∀ err,
        (insert_history_row_cached tuple relid tupdesc history_relid
            history_tupdesc period_attname cache).outcome = .error err →
        (insert_history_row_cached tuple relid tupdesc history_relid history_tupdesc
            period_attname
            (insert_history_row_cached tuple relid tupdesc history_relid
               history_tupdesc period_attname cache).cache).rebuilt = true) ∧
      (∀ vals,
        (insert_history_row_cached tuple relid tupdesc history_relid
            history_tupdesc period_attname cache).outcome = .ok vals →
        ∃ e, ((insert_history_row_cached tuple relid tupdesc history_relid
                 history_tupdesc period_attname cache).cache.entries.find?
               (fun q => q.1 = relid)) = some (relid, e) ∧
          e.natts ≠ -1) := by
  intro tuple relid td hrelid htd pan cache
  rcases hfind : cache.entries.find? (fun q => q.1 = relid) with _ | pr
  · -- cache miss: a fresh invalid entry is created and rebuilt
    have hlk1 : (lookup_versioning_hash_entry relid cache).1 = freshHashEntry relid := by
      simp [lookup_versioning_hash_entry, hfind]
    have hshape := insert_history_miss tuple relid td hrelid htd pan cache hfind
    have hIns : (((⟨(relid, freshHashEntry relid) :: cache.entries⟩ :
        VersioningCache)).entries.find? (fun q => q.1 = relid)).isSome = true := by
      simp [List.find?_cons]
    rcases hfill : fill_versioning_hash_entry (freshHashEntry relid) hrelid td htd pan
      with err0 | e2 <;> rw [hfill] at hshape <;> rw [hshape]
    · refine ⟨?_, ?_, ?_, ?_⟩
      · simp [hlk1, freshHashEntry]
      · intro err herr
        exact ⟨freshHashEntry relid, store_find relid (freshHashEntry relid) _ hIns,
               rfl, rfl, rfl⟩
      · intro err herr
        exact insert_history_rebuilt_of_invalid tuple relid td hrelid htd pan _
          (freshHashEntry relid) (store_find relid (freshHashEntry relid) _ hIns) rfl
      · intro vals hv
        cases hv
    · refine ⟨?_, ?_, ?_, ?_⟩
      · simp [hlk1, freshHashEntry]
      · intro err herr
        cases herr
      · intro err herr
        cases herr
      · intro vals hv
        refine ⟨e2, store_find relid e2 _ hIns, ?_⟩
        have := fill_versioning_ok_valid hfill
        omega
  · -- cache hit
    have hpr1 : pr.1 = relid := by
      have := List.find?_some hfind
      exact of_decide_eq_true this
    have hlk1 : (lookup_versioning_hash_entry relid cache).1 = pr.2 := by
      simp [lookup_versioning_hash_entry, hfind]
    have hSome : ((cache.entries.find? (fun q => q.1 = relid)).isSome = true) := by
      simp [hfind]
    by_cases hst : hash_entry_stale pr.2 hrelid td htd = true
    · have hshape := insert_history_hit_stale tuple relid td hrelid htd pan cache
        pr hfind hst
      rcases hfill : fill_versioning_hash_entry (invalidate_hash_entry pr.2)
          hrelid td htd pan with err0 | e2 <;> rw [hfill] at hshape <;> rw [hshape]
      · refine ⟨?_, ?_, ?_, ?_⟩
        · rw [hlk1]
          exact iff_of_true rfl (of_decide_eq_true hst)
        · intro err herr
          exact ⟨invalidate_hash_entry pr.2,
                 store_find relid (invalidate_hash_entry pr.2) _ hSome,
                 rfl, rfl, rfl⟩
        · intro err herr
          exact insert_history_rebuilt_of_invalid tuple relid td hrelid htd pan _
            (invalidate_hash_entry pr.2)
            (store_find relid (invalidate_hash_entry pr.2) _ hSome) rfl
        · intro vals hv
          cases hv
      · refine ⟨?_, ?_, ?_, ?_⟩
        · rw [hlk1]
          exact iff_of_true rfl (of_decide_eq_true hst)
        · intro err herr
          cases herr
        · intro err herr
          cases herr
        · intro vals hv
          refine ⟨e2, store_find relid e2 _ hSome, ?_⟩
          have := fill_versioning_ok_valid hfill
          omega
    · have hst2 : hash_entry_stale pr.2 hrelid td htd = false :=
        eq_false_of_ne_true hst
      have hshape := insert_history_hit_valid tuple relid td hrelid htd pan cache
        pr hfind hst2
      rw [hshape]
      refine ⟨?_, ?_, ?_, ?_⟩
      · rw [hlk1]
        refine iff_of_false (by simp) ?_
        intro hcon
        exact absurd hst2 (by simp [hash_entry_stale, hcon])
      · intro err herr
        cases herr
      · intro err herr
        cases herr
      · intro vals hv
        refine ⟨pr.2, ?_, ?_⟩
        · have := store_find relid pr.2 cache hSome
          exact this
        · intro hcon
          exact absurd hst2 (by simp [hash_entry_stale, hcon])


/-- Witness for C5: a one-column relation; a history relation missing the
period column makes the rebuild fail and retry, a matching one rebuilds
successfully. -/
theorem claim_C5_witness :
    ((insert_history_row_cached ⟨1, [.range (.mk (some (0, true)) none)]⟩ 100
        [⟨"sys_period", 3910, 0, -1, false⟩] 200 [⟨"other", 23, 0, -1, false⟩]
        "sys_period" ⟨[]⟩).rebuilt = true) ∧
    (∃ e, ((insert_history_row_cached ⟨1, [.range (.mk (some (0, true)) none)]⟩ 100
          [⟨"sys_period", 3910, 0, -1, false⟩] 200 [⟨"other", 23, 0, -1, false⟩]
          "sys_period" ⟨[]⟩).cache.entries.find? (fun q => q.1 = 100)) =
        some (100, e) ∧
      e.natts = -1 ∧ e.insert_history_plan = none ∧ e.attnums = none) ∧
    ((insert_history_row_cached ⟨1, [.range (.mk (some (0, true)) none)]⟩ 100
        [⟨"sys_period", 3910, 0, -1, false⟩] 200 [⟨"other", 23, 0, -1, false⟩]
        "sys_period"
        (insert_history_row_cached ⟨1, [.range (.mk (some (0, true)) none)]⟩ 100
          [⟨"sys_period", 3910, 0, -1, false⟩] 200 [⟨"other", 23, 0, -1, false⟩]
          "sys_period" ⟨[]⟩).cache).rebuilt = true) ∧
    (∃ e, ((insert_history_row_cached ⟨1, [.range (.mk (some (0, true)) none)]⟩ 100
          [⟨"sys_period", 3910, 0, -1, false⟩] 200
          [⟨"sys_period", 3910, 0, -1, false⟩] "sys_period"
          ⟨[]⟩).cache.entries.find? (fun q => q.1 = 100)) = some (100, e) ∧
      e.natts ≠ -1) :=
  ⟨(claim_C5_cache_rebuild ⟨1, [.range (.mk (some (0, true)) none)]⟩ 100
      [⟨"sys_period", 3910, 0, -1, false⟩] 200 [⟨"other", 23, 0, -1, false⟩]
      "sys_period" ⟨[]⟩).1.mpr (by decide),
   (claim_C5_cache_rebuild ⟨1, [.range (.mk (some (0, true)) none)]⟩ 100
      [⟨"sys_period", 3910, 0, -1, false⟩] 200 [⟨"other", 23, 0, -1, false⟩]
      "sys_period" ⟨[]⟩).2.1 (.historyRelationMissingPeriodColumn "sys_period")
      (by decide),
   (claim_C5_cache_rebuild ⟨1, [.range (.mk (some (0, true)) none)]⟩ 100
      [⟨"sys_period", 3910, 0, -1, false⟩] 200 [⟨"other", 23, 0, -1, false⟩]
      "sys_period" ⟨[]⟩).2.2.1 (.historyRelationMissingPeriodColumn "sys_period")
      (by decide),
   (claim_C5_cache_rebuild ⟨1, [.range (.mk (some (0, true)) none)]⟩ 100
      [⟨"sys_period", 3910, 0, -1, false⟩] 200 [⟨"sys_period", 3910, 0, -1, false⟩]
      "sys_period" ⟨[]⟩).2.2.2 [.range (.mk (some (0, true)) none)] (by decide)⟩

/-! `next_timestamp` and the `integer_datetimes` lookup (versioning.c). -/

/-- The static cache around `integer_datetimes`, with a count of the
`GetConfigOption` calls performed. -/
structure DatetimeCache where
  integer_datetimes : Bool
  integer_datetimes_set : Bool
  config_lookups : Nat
deriving DecidableEq

def initDatetimeCache : DatetimeCache := ⟨false, false, 0⟩

/-- `lookup_integer_datetimes` (versioning.c): one `GetConfigOption`
call; `config_value` is the host's "integer_datetimes" setting. -/
def lookup_integer_datetimes (config_value : String) (st : DatetimeCache) :
    DatetimeCache :=
  { integer_datetimes := config_value = "on",
    integer_datetimes_set := true,
    config_lookups := st.config_lookups + 1 }

/-- The caching prelude of `next_timestamp`: look the option up only when
it has not been looked up yet. -/
def next_timestamp_lookup (config_value : String) (st : DatetimeCache) :
    DatetimeCache :=
  if st.integer_datetimes_set then st else lookup_integer_datetimes config_value st

/-- `next_timestamp`, floating-point branch, with the double-precision
arithmetic abstracted: `round` is the host's float8 rounding applied to
the exact sum `ts + 1e-6`, and `nextafterF` is `nextafter(ts, DBL_MAX)`.
The code adds one microsecond and falls back to the next representable
value when the addition is numerically indistinguishable from `ts`. -/
def next_timestamp_float (round nextafterF : ℚ → ℚ) (ts : ℚ) : ℚ :=
  let next := round (ts + 1 / 1000000)
  if next ≠ ts then next else nextafterF ts

/-- Claim C6: the successor function returns a value strictly greater
than its input: the integer representation adds one microsecond; the
floating-point representation adds one microsecond unless the result is
numerically indistinguishable from the input, in which case it takes the
next representable value above it; and the representation is looked up at
most once and cached. -/
theorem claim_C6_timestamp_successor :
    (∀ t : TimestampTz, next_timestamp t = t + 1 ∧ t < next_timestamp t) ∧
    (∀ (round nextafterF : ℚ → ℚ) (ts : ℚ),
      Monotone round → round ts = ts → ts < nextafterF ts →
      (round (ts + 1 / 1000000) ≠ ts →
        next_timestamp_float round nextafterF ts = round (ts + 1 / 1000000)) ∧
      (round (ts + 1 / 1000000) = ts →
        next_timestamp_float round nextafterF ts = nextafterF ts) ∧
      ts < next_timestamp_float round nextafterF ts) ∧
    (∀ (config_value : String) (st : DatetimeCache),
      (next_timestamp_lookup config_value st).integer_datetimes_set = true ∧
      (st.integer_datetimes_set = true → next_timestamp_lookup config_value st = st) ∧
      (∀ n, ((next_timestamp_lookup config_value)^[n]
          initDatetimeCache).config_lookups ≤ 1)) := by
  refine ⟨?_, ?_, ?_⟩
  · intro t
    exact ⟨rfl, lt_add_one t⟩
  · intro round nextafterF ts hmono hfix hna
    refine ⟨?_, ?_, ?_⟩
    · intro hne
      show (if round (ts + 1 / 1000000) ≠ ts then round (ts + 1 / 1000000)
            else nextafterF ts) = _
      rw [if_pos hne]
    · intro heq
      show (if round (ts + 1 / 1000000) ≠ ts then round (ts + 1 / 1000000)
            else nextafterF ts) = _
      rw [if_neg (not_not_intro heq)]
    · have hge : ts ≤ round (ts + 1 / 1000000) := by
        calc ts = round ts := hfix.symm
        _ ≤ round (ts + 1 / 1000000) := hmono (by linarith)
      by_cases hne : round (ts + 1 / 1000000) = ts
      · have h2 : next_timestamp_float round nextafterF ts = nextafterF ts := by
          show (if round (ts + 1 / 1000000) ≠ ts then round (ts + 1 / 1000000)
                else nextafterF ts) = _
          rw [if_neg (not_not_intro hne)]
        rw [h2]
        exact hna
      · have h2 : next_timestamp_float round nextafterF ts =
            round (ts + 1 / 1000000) := by
          show (if round (ts + 1 / 1000000) ≠ ts then round (ts + 1 / 1000000)
                else nextafterF ts) = _
          rw [if_pos hne]
        rw [h2]
        exact lt_of_le_of_ne hge (fun hcon => hne hcon.symm)
  · intro config_value st
    refine ⟨?_, ?_, ?_⟩
    · by_cases hset : st.integer_datetimes_set = true
      · simp [next_timestamp_lookup, hset]
      · simp [next_timestamp_lookup, hset, lookup_integer_datetimes]
    · intro hset
      simp [next_timestamp_lookup, hset]
    · intro n
      cases n with
      | zero => simp [initDatetimeCache]
      | succ m =>
        have hone : ∀ k, (next_timestamp_lookup config_value)^[k + 1]
            initDatetimeCache =
            lookup_integer_datetimes config_value initDatetimeCache := by
          intro k
          induction k with
          | zero =>
            simp [next_timestamp_lookup, initDatetimeCache]
          | succ j ih =>
            rw [Function.iterate_succ_apply', ih]
            simp [next_timestamp_lookup, lookup_integer_datetimes]
        rw [hone m]
        simp [lookup_integer_datetimes, initDatetimeCache]


/-- Witness for C6: the float branch instantiated with identity rounding
and successor `+ 1`. -/
theorem claim_C6_witness :
    (next_timestamp 41 = 41 + 1 ∧ (41 : TimestampTz) < next_timestamp 41) ∧
    ((id ((0 : ℚ) + 1 / 1000000) ≠ 0 →
       next_timestamp_float id (fun x => x + 1) 0 = id ((0 : ℚ) + 1 / 1000000)) ∧
     (id ((0 : ℚ) + 1 / 1000000) = 0 →
       next_timestamp_float id (fun x => x + 1) 0 = (0 : ℚ) + 1) ∧
     (0 : ℚ) < next_timestamp_float id (fun x => x + 1) 0) ∧
    ((next_timestamp_lookup "on" initDatetimeCache).integer_datetimes_set = true ∧
     (initDatetimeCache.integer_datetimes_set = true →
       next_timestamp_lookup "on" initDatetimeCache = initDatetimeCache) ∧
     (∀ n, ((next_timestamp_lookup "on")^[n] initDatetimeCache).config_lookups ≤ 1)) :=
  ⟨claim_C6_timestamp_successor.1 41,
   claim_C6_timestamp_successor.2.1 id (fun x => x + 1) 0 monotone_id rfl (by simp),
   claim_C6_timestamp_successor.2.2 "on" initDatetimeCache⟩

end TemporalTables
